import Mathlib

/-!
Verification development for the smarthubp reading-service decoder.

The Python sources (smarthubp/parse.py, smarthubp/time_utils.py,
smarthubp/reading_service.py, smarthubp/meter_reading.py) are shallowly
embedded below.  Python runtime behaviour that the decoder relies on is
modelled explicitly:

* Python list indexing (negative indices count from the end; out-of-range
  raises IndexError) is `pyGet`.
* Python exceptions are the error type `PyErr`; functions that can raise
  return `Except PyErr _`.
* `datetime` values are modelled as whole seconds since the epoch (`Int`);
  the decoder only ever constructs timestamps from whole seconds and only
  ever shifts them by whole hours, so this is exact.  `datetime.fromtimestamp`
  is `pyFromtimestamp`, failing outside the representable datetime range.
* Python `float` values produced by `float(token)` are modelled as exact
  rationals (`pyFloat`); the decoder never does arithmetic on them, it only
  stores and copies them, so the numeric type does not affect behaviour.
* `base64.b64decode(b, altchars=b"$_")` in non-validating mode is embedded
  faithfully (`a2b_base64`): characters outside the (substituted) alphabet
  are silently discarded, `=` terminates a quad once at least two characters
  of it are present, and a leftover partial quad is a `binascii.Error`.
-/

/-- Python exception classes that the embedded code can raise. -/
inductive PyErr where
  | indexError
  | valueError
  | binasciiError
  | overflowError
  | invalidMetadata
  | invalidData
  deriving DecidableEq, Repr

instance {ε α : Type} [DecidableEq ε] [DecidableEq α] :
    DecidableEq (Except ε α) := fun x y =>
  match x, y with
  | .ok a, .ok b =>
      if h : a = b then .isTrue (by rw [h])
      else .isFalse (by intro hc; injection hc; exact h ‹_›)
  | .ok _, .error _ => .isFalse (by intro hc; cases hc)
  | .error _, .ok _ => .isFalse (by intro hc; cases hc)
  | .error e, .error f =>
      if h : e = f then .isTrue (by rw [h])
      else .isFalse (by intro hc; injection hc; exact h ‹_›)

/-- Embeds smarthubp/meter_reading.py: `MeterReading(timestamp, kwh)`.
Timestamps are whole seconds since the epoch, kwh values exact rationals. -/
structure MeterReading where
  timestamp : Int
  kwh : ℚ
  deriving DecidableEq, Repr

/-- Python list indexing `l[i]`: a negative index counts from the end of the
list, and an index out of range raises IndexError. -/
def pyGet {α : Type} (l : List α) (i : Int) : Except PyErr α :=
  let j := if i < 0 then i + (l.length : Int) else i
  if h : 0 ≤ j ∧ j < (l.length : Int) then
    .ok (l.get ⟨j.toNat, by omega⟩)
  else
    .error .indexError

theorem pyGet_ok {α : Type} (l : List α) (i : Int) (h0 : 0 ≤ i)
    (h1 : i < (l.length : Int)) :
    pyGet l i = .ok (l.get ⟨i.toNat, by omega⟩) := by
  simp only [pyGet]
  have : ¬ i < 0 := by omega
  simp only [this, if_false]
  rw [dif_pos ⟨h0, h1⟩]

theorem pyGet_neg {α : Type} (l : List α) (i : Int) (hneg : i < 0)
    (h0 : 0 ≤ i + (l.length : Int)) :
    pyGet l i = .ok (l.get ⟨(i + (l.length : Int)).toNat, by omega⟩) := by
  simp only [pyGet, hneg, if_true]
  rw [dif_pos ⟨h0, by omega⟩]

theorem pyGet_mem {α : Type} {l : List α} {i : Int} {x : α}
    (h : pyGet l i = .ok x) : x ∈ l := by
  simp only [pyGet] at h
  by_cases hc : 0 ≤ (if i < 0 then i + (l.length : Int) else i) ∧
      (if i < 0 then i + (l.length : Int) else i) < (l.length : Int)
  · rw [dif_pos hc] at h
    injection h with h2
    rw [← h2]
    exact List.get_mem _ _ _
  · rw [dif_neg hc] at h
    cases h

theorem pyGet_error_eq {α : Type} {l : List α} {i : Int} {e : PyErr}
    (h : pyGet l i = .error e) : e = .indexError := by
  simp only [pyGet] at h
  by_cases hc : 0 ≤ (if i < 0 then i + (l.length : Int) else i) ∧
      (if i < 0 then i + (l.length : Int) else i) < (l.length : Int)
  · rw [dif_pos hc] at h
    cases h
  · rw [dif_neg hc] at h
    injection h with h2
    rw [← h2]

/-- Reading a token of the middle section of a stream `pre ++ mid ++ post`
by its absolute position. -/
theorem pyGet_at {α : Type} (pre mid post : List α) (i : Nat)
    (h : i < mid.length) :
    pyGet (pre ++ mid ++ post) ((pre.length : Int) + i)
      = .ok (mid.get ⟨i, h⟩) := by
  have hlen : ((pre ++ mid ++ post).length : Int)
      = (pre.length : Int) + mid.length + post.length := by
    push_cast [List.length_append]
    ring
  rw [pyGet_ok _ _ (by omega) (by omega)]
  congr 1
  have hnat : ((pre.length : Int) + i).toNat = pre.length + i := by omega
  simp only [List.get_eq_getElem]
  apply Option.some.inj
  rw [← List.getElem?_eq_getElem, ← List.getElem?_eq_getElem, hnat,
    List.append_assoc, List.getElem?_append_right (Nat.le_add_right _ _),
    Nat.add_sub_cancel_left, List.getElem?_append_left h]

/-! ### Models of Python built-in parsing -/

/-- Is `c` an ASCII decimal digit. -/
def charIsDigit (c : Char) : Bool := decide (48 ≤ c.toNat ∧ c.toNat ≤ 57)

/-- Value of a digit string (most significant first). -/
def digitsToNat (cs : List Char) : Nat :=
  cs.foldl (fun a c => a * 10 + (c.toNat - 48)) 0

/-- Modelled from the Python built-in `int(token)` as used by the decoder:
an optional sign followed by decimal digits; anything else raises
ValueError. -/
def pyInt (s : String) : Except PyErr Int :=
  match s.toList with
  | '-' :: ds =>
      if ds ≠ [] ∧ ds.all charIsDigit then .ok (-(digitsToNat ds : Int))
      else .error .valueError
  | '+' :: ds =>
      if ds ≠ [] ∧ ds.all charIsDigit then .ok (digitsToNat ds : Int)
      else .error .valueError
  | ds =>
      if ds ≠ [] ∧ ds.all charIsDigit then .ok (digitsToNat ds : Int)
      else .error .valueError

/-- Apply a Python numeric sign. -/
def pySign (neg : Bool) (q : ℚ) : ℚ := if neg then -q else q

/-- Modelled from the Python built-in `float(token)` on the decimal literals
the vendor stream uses (optional sign, digits, optional fractional part):
the parsed value, exact; anything else raises ValueError. -/
def pyFloat (s : String) : Except PyErr ℚ :=
  let cs := s.toList
  let p := match cs with
    | '-' :: t => (true, t)
    | '+' :: t => (false, t)
    | t => (false, t)
  let ip := p.2.takeWhile charIsDigit
  let rest := p.2.dropWhile charIsDigit
  match rest with
  | [] =>
      if ip = [] then .error .valueError
      else .ok (pySign p.1 (digitsToNat ip : ℚ))
  | '.' :: fp =>
      if fp.all charIsDigit ∧ (ip ≠ [] ∨ fp ≠ []) then
        .ok (pySign p.1
          ((digitsToNat ip : ℚ) + (digitsToNat fp : ℚ) / ((10 : ℚ) ^ fp.length)))
      else .error .valueError
  | _ => .error .valueError

/-! ### The timestamp codec (smarthubp/time_utils.py) -/

/-- Value of one character of the modified base64 alphabet: the standard
alphabet, with the vendor substitutions `$` for `+` and `_` for `/` also
accepted (b64decode translates the altchars and keeps the originals). -/
def b64CharVal (c : Char) : Option Nat :=
  if 65 ≤ c.toNat ∧ c.toNat ≤ 90 then some (c.toNat - 65)
  else if 97 ≤ c.toNat ∧ c.toNat ≤ 122 then some (c.toNat - 97 + 26)
  else if 48 ≤ c.toNat ∧ c.toNat ≤ 57 then some (c.toNat - 48 + 52)
  else if c = '+' ∨ c = '$' then some 62
  else if c = '/' ∨ c = '_' then some 63
  else none

/-- Embeds CPython `binascii.a2b_base64` in non-strict mode (what
`base64.b64decode` calls with `validate=False`): walk the characters with a
quad position, the pending high bits, and a padding counter; characters
outside the alphabet are discarded; `=` closes the current quad once it has
at least two characters; a leftover partial quad at the end is an error. -/
def a2b_base64 : List Char → Nat → Nat → Nat → List Nat → Except PyErr (List Nat)
  | [], quadPos, _, _, out =>
      if quadPos = 0 then .ok out else .error .binasciiError
  | c :: rest, quadPos, leftchar, pads, out =>
      if c = '=' then
        if 2 ≤ quadPos then
          if 4 ≤ quadPos + (pads + 1) then .ok out
          else a2b_base64 rest quadPos leftchar (pads + 1) out
        else a2b_base64 rest quadPos leftchar pads out
      else
        match b64CharVal c with
        | none => a2b_base64 rest quadPos leftchar pads out
        | some v =>
          match quadPos with
          | 0 => a2b_base64 rest 1 v 0 out
          | 1 => a2b_base64 rest 2 (v % 16) 0 (out ++ [leftchar * 4 + v / 16])
          | 2 => a2b_base64 rest 3 (v % 4) 0 (out ++ [leftchar * 16 + v / 4])
          | _ => a2b_base64 rest 0 0 0 (out ++ [leftchar * 64 + v])

/-- Python `int.from_bytes(bytes, "big")`. -/
def bytesToNat (bs : List Nat) : Nat :=
  bs.foldl (fun a b => a * 256 + b) 0

/-- Latest timestamp representable as a Python datetime (9999-12-31 23:59:59
UTC as seconds since the epoch). -/
def pyMaxTimestamp : Int := 253402300799

/-- Earliest timestamp representable as a Python datetime (0001-01-01 00:00:00
UTC as seconds since the epoch). -/
def pyMinTimestamp : Int := -62135596800

/-- Models Python `datetime.fromtimestamp(secs)` on whole seconds: the same
point in time, raising OverflowError outside the representable datetime
range. -/
def pyFromtimestamp (secs : Int) : Except PyErr Int :=
  if pyMinTimestamp ≤ secs ∧ secs ≤ pyMaxTimestamp then .ok secs
  else .error .overflowError

/-- Embeds `time_utils.timestamp_from_encoded`: append `"=="`, base64-decode
with the substituted alphabet, read the bytes as a big-endian tick count of
4 ms units, floor-divide by 250 to get whole seconds, convert to a point in
time. -/
def timestamp_from_encoded (s : String) : Except PyErr Int :=
  match a2b_base64 (s ++ "==").toList 0 0 0 [] with
  | .error e => .error e
  | .ok bytes => pyFromtimestamp ((bytesToNat bytes / 250 : Nat) : Int)

/-- One output character of the modified base64 alphabet (b64encode with
altchars substitutes `$` for `+` and `_` for `/`). -/
def encodeB64Char (v : Nat) : Char :=
  if v < 26 then Char.ofNat (65 + v)
  else if v < 52 then Char.ofNat (97 + (v - 26))
  else if v < 62 then Char.ofNat (48 + (v - 52))
  else if v = 62 then '$'
  else '_'

/-- Standard base64 encoding of a byte list (with the substituted alphabet),
three bytes to four characters, `=`-padded. -/
def b64encodeChars : List Nat → List Char
  | b1 :: b2 :: b3 :: rest =>
      encodeB64Char (b1 / 4) :: encodeB64Char ((b1 % 4) * 16 + b2 / 16)
        :: encodeB64Char ((b2 % 16) * 4 + b3 / 64) :: encodeB64Char (b3 % 64)
        :: b64encodeChars rest
  | [b1, b2] =>
      [encodeB64Char (b1 / 4), encodeB64Char ((b1 % 4) * 16 + b2 / 16),
       encodeB64Char ((b2 % 16) * 4), '=']
  | [b1] =>
      [encodeB64Char (b1 / 4), encodeB64Char ((b1 % 4) * 16), '=', '=']
  | [] => []

/-- Python `n.to_bytes(8, "big")`: eight big-endian bytes, raising
OverflowError when the integer does not fit (checked by the caller here). -/
def toBytes8 (n : Nat) : List Nat :=
  [n / 256 ^ 7 % 256, n / 256 ^ 6 % 256, n / 256 ^ 5 % 256, n / 256 ^ 4 % 256,
   n / 256 ^ 3 % 256, n / 256 ^ 2 % 256, n / 256 % 256, n % 256]

/-- Embeds `time_utils.encoded_from_timestamp`: whole seconds times 250 ticks,
serialized as eight big-endian bytes, base64-encoded with the substituted
alphabet (OverflowError if the tick count does not fit in eight bytes, i.e.
for pre-epoch timestamps or counts at least 2^64). -/
def encoded_from_timestamp (t : Int) : Except PyErr String :=
  let msec4 : Int := t * 250
  if 0 ≤ msec4 ∧ msec4 < (2 : Int) ^ 64 then
    .ok (String.mk (b64encodeChars (toBytes8 msec4.toNat)))
  else
    .error .overflowError

/-! ### The combined-list decoder (parse.py `_read_combined`) -/

/-- Embeds the inner scan loop of `_read_combined`:
`while idx >= 0 and csvd[idx] != '9' and csvd[idx] != '11': idx -= 1`.
Returns the final scan position (negative when the scan ran off the front). -/
def findMarker (csvd : List String) (idx : Int) : Except PyErr Int :=
  if idx < 0 then .ok idx
  else
    match pyGet csvd idx with
    | .error e => .error e
    | .ok t => if t = "9" ∨ t = "11" then .ok idx else findMarker csvd (idx - 1)
termination_by (idx + 1).toNat
decreasing_by
  simp_wf
  omega

theorem findMarker_le {csvd : List String} {idx m : Int}
    (h : findMarker csvd idx = .ok m) : m ≤ idx := by
  induction idx using findMarker.induct csvd with
  | case1 idx hlt =>
    rw [findMarker, if_pos hlt] at h
    injection h with h2
    omega
  | case2 idx hlt e he =>
    rw [findMarker, if_neg hlt, he] at h
    cases h
  | case3 idx hlt t ht hmark =>
    rw [findMarker, if_neg hlt, ht] at h
    simp only [] at h
    rw [if_pos hmark] at h
    injection h with h2
    omega
  | case4 idx hlt t ht hmark ih =>
    rw [findMarker, if_neg hlt, ht] at h
    simp only [] at h
    rw [if_neg hmark] at h
    have := ih h
    omega

/-- Embeds the outer loop of `_read_combined`: find the next `'9'`/`'11'`
marker; warn (second component `true`) and stop if the scan ran off the front
or the token two positions back is not `'10'`; stop normally on `'11'`;
otherwise decode the timestamp one back and the value three back, accumulate
the reading and continue one before the marker. -/
def readCombinedAux (csvd : List String) (idx : Int) (acc : List MeterReading) :
    Except PyErr (List MeterReading × Bool) :=
  if idx < 0 then .ok (acc, false)
  else
    match hm : findMarker csvd idx with
    | .error e => .error e
    | .ok m =>
      if hneg : m < 0 then .ok (acc, true)
      else
        match pyGet csvd (m - 2) with
        | .error e => .error e
        | .ok t2 =>
          if t2 ≠ "10" then .ok (acc, true)
          else
            match pyGet csvd m with
            | .error e => .error e
            | .ok tm =>
              if tm = "11" then .ok (acc, false)
              else
                match pyGet csvd (m - 1) with
                | .error e => .error e
                | .ok tsTok =>
                  match timestamp_from_encoded tsTok with
                  | .error e => .error e
                  | .ok ts =>
                    match pyGet csvd (m - 3) with
                    | .error e => .error e
                    | .ok vTok =>
                      match pyFloat vTok with
                      | .error e => .error e
                      | .ok q => readCombinedAux csvd (m - 1) (acc ++ [⟨ts, q⟩])
termination_by (idx + 1).toNat
decreasing_by
  have := findMarker_le hm
  simp_wf
  omega

/-- Embeds `parse._read_combined`: scan the stream backward from the end
accumulating combined-list readings, then reverse to chronological order.
The boolean records whether the "Unexpected exit from combined list
processing." warning was logged. -/
def read_combined (csvd : List String) : Except PyErr (List MeterReading × Bool) :=
  match readCombinedAux csvd ((csvd.length : Int) - 1) [] with
  | .error e => .error e
  | .ok (l, w) => .ok (l.reverse, w)

/-! ### The per-meter-list decoder (parse.py `_get_list_readings`) -/

/-- Embeds the inner scan loop of `_get_list_readings`:
`while idx >= 0 and csvd[idx] not in ['8', '24', '3']: idx -= 1`. -/
def findStop (csvd : List String) (idx : Int) : Except PyErr Int :=
  if idx < 0 then .ok idx
  else
    match pyGet csvd idx with
    | .error e => .error e
    | .ok t =>
      if t = "8" ∨ t = "24" ∨ t = "3" then .ok idx else findStop csvd (idx - 1)
termination_by (idx + 1).toNat
decreasing_by
  simp_wf
  omega

theorem findStop_le {csvd : List String} {idx m : Int}
    (h : findStop csvd idx = .ok m) : m ≤ idx := by
  induction idx using findStop.induct csvd with
  | case1 idx hlt =>
    rw [findStop, if_pos hlt] at h
    injection h with h2
    omega
  | case2 idx hlt e he =>
    rw [findStop, if_neg hlt, he] at h
    cases h
  | case3 idx hlt t ht hmark =>
    rw [findStop, if_neg hlt, ht] at h
    simp only [] at h
    rw [if_pos hmark] at h
    injection h with h2
    omega
  | case4 idx hlt t ht hmark ih =>
    rw [findStop, if_neg hlt, ht] at h
    simp only [] at h
    rw [if_neg hmark] at h
    have := ih h
    omega

/-- Embeds the body of the `_get_list_readings` loop once the per-entry
terminator `'8'` has been located at position `s` (the Python code has just
done `idx -= 6`): read the timestamp slot at `s - 6` (either the `'9'` marker
with an encoded timestamp one further back, or a back-reference into the
combined list), apply the process-wide hour offset `off`, then read the value
slot the same way (`'10'` marker or back-reference).  Returns the scan
position the loop continues from together with the decoded reading. -/
def processMeterEntry (off : Int) (csvd : List String)
    (combined : List MeterReading) (s : Int) :
    Except PyErr (Int × MeterReading) :=
  match pyGet csvd (s - 6) with
  | .error e => .error e
  | .ok tSlot =>
    match
      (if tSlot = "9" then
        match pyGet csvd (s - 7) with
        | .error e => .error e
        | .ok tok =>
          match timestamp_from_encoded tok with
          | .error e => .error e
          | .ok ts => .ok (s - 8, ts)
      else
        match pyInt tSlot with
        | .error e => .error e
        | .ok v =>
          match pyGet combined (Int.fdiv v 3 + 2) with
          | .error e => .error e
          | .ok r => .ok (s - 7, r.timestamp) :
        Except PyErr (Int × Int)) with
    | .error e => .error e
    | .ok (k, ts0) =>
      let ts := ts0 + off * 3600
      match pyGet csvd k with
      | .error e => .error e
      | .ok vSlot =>
        if vSlot = "10" then
          match pyGet csvd (k - 1) with
          | .error e => .error e
          | .ok vt =>
            match pyFloat vt with
            | .error e => .error e
            | .ok q => .ok (k, ⟨ts, q⟩)
        else
          match pyInt vSlot with
          | .error e => .error e
          | .ok v =>
            match pyGet combined (Int.fdiv v 3 + 2) with
            | .error e => .error e
            | .ok r => .ok (k, ⟨ts, r.kwh⟩)

theorem processMeterEntry_le {off : Int} {csvd : List String}
    {combined : List MeterReading} {s k : Int} {r : MeterReading}
    (h : processMeterEntry off csvd combined s = .ok (k, r)) : k ≤ s - 7 := by
  unfold processMeterEntry at h
  rcases h6 : pyGet csvd (s - 6) with e | tSlot <;> rw [h6] at h
  · cases h
  · simp only [] at h
    by_cases h9 : tSlot = "9"
    · rw [if_pos h9] at h
      rcases h7 : pyGet csvd (s - 7) with e | tok <;> rw [h7] at h
      · cases h
      · simp only [] at h
        rcases hdec : timestamp_from_encoded tok with e | ts <;> rw [hdec] at h
        · cases h
        · simp only [] at h
          rcases hk : pyGet csvd (s - 8) with e | vSlot <;> rw [hk] at h
          · cases h
          · simp only [] at h
            split at h
            · rcases h1 : pyGet csvd (s - 8 - 1) with e | vt <;> rw [h1] at h
              · cases h
              · simp only [] at h
                rcases h2 : pyFloat vt with e | q <;> rw [h2] at h
                · cases h
                · simp only [] at h
                  injection h with h3
                  injection h3 with h4 h5
                  omega
            · rcases h1 : pyInt vSlot with e | v <;> rw [h1] at h
              · cases h
              · simp only [] at h
                rcases h2 : pyGet combined (Int.fdiv v 3 + 2) with e | rr <;>
                  rw [h2] at h
                · cases h
                · simp only [] at h
                  injection h with h3
                  injection h3 with h4 h5
                  omega
    · rw [if_neg h9] at h
      rcases h7 : pyInt tSlot with e | v <;> rw [h7] at h
      · cases h
      · simp only [] at h
        rcases h8 : pyGet combined (Int.fdiv v 3 + 2) with e | rr <;> rw [h8] at h
        · cases h
        · simp only [] at h
          rcases hk : pyGet csvd (s - 7) with e | vSlot <;> rw [hk] at h
          · cases h
          · simp only [] at h
            split at h
            · rcases h1 : pyGet csvd (s - 7 - 1) with e | vt <;> rw [h1] at h
              · cases h
              · simp only [] at h
                rcases h2 : pyFloat vt with e | q <;> rw [h2] at h
                · cases h
                · simp only [] at h
                  injection h with h3
                  injection h3 with h4 h5
                  omega
            · rcases h1 : pyInt vSlot with e | v2 <;> rw [h1] at h
              · cases h
              · simp only [] at h
                rcases h2 : pyGet combined (Int.fdiv v2 3 + 2) with e | rr2 <;>
                  rw [h2] at h
                · cases h
                · simp only [] at h
                  injection h with h3
                  injection h3 with h4 h5
                  omega

/-- Embeds the outer loop of `_get_list_readings`: find the next stop token
(`'8'`, `'24'` or `'3'`); stop (returning the scan position and the readings
accumulated so far, newest first) unless the position is at least 8 and the
token is `'8'`; otherwise decode one entry and continue from the position it
reports. -/
def getListReadingsAux (off : Int) (csvd : List String)
    (combined : List MeterReading) (idx : Int) (readings : List MeterReading) :
    Except PyErr (Int × List MeterReading) :=
  if idx < 0 then .ok (idx, readings)
  else
    match hs : findStop csvd idx with
    | .error e => .error e
    | .ok s =>
      if hs8 : s < 8 then .ok (s, readings)
      else
        match pyGet csvd s with
        | .error e => .error e
        | .ok t =>
          if t ≠ "8" then .ok (s, readings)
          else
            match hp : processMeterEntry off csvd combined s with
            | .error e => .error e
            | .ok (k, r) => getListReadingsAux off csvd combined k (readings ++ [r])
termination_by (idx + 1).toNat
decreasing_by
  have h1 := findStop_le hs
  have h2 := processMeterEntry_le hp
  simp_wf
  omega

/-- Embeds `parse._get_list_readings` with the process-wide hour offset
(`time_utils.time_offset`) passed explicitly as `off`: returns the stop index
and the readings of one per-meter list, newest first. -/
def get_list_readings (off : Int) (csvd : List String) (idx : Int)
    (combined : List MeterReading) : Except PyErr (Int × List MeterReading) :=
  getListReadingsAux off csvd combined idx []

/-! ### The meter-name extractor (parse.py `_extract_meters`) -/

/-- Do the characters of `needle` appear at the start of `hay`. -/
def charsMatchAt : List Char → List Char → Bool
  | [], _ => true
  | _ :: _, [] => false
  | a :: as, b :: bs => a = b && charsMatchAt as bs

/-- Does `needle` occur as a contiguous run inside `hay`. -/
def hasSubList (needle hay : List Char) : Bool :=
  charsMatchAt needle hay ||
    match hay with
    | [] => false
    | _ :: t => hasSubList needle t

/-- Python substring containment `needle in hay` on strings. -/
def pyInStr (needle hay : String) : Bool := hasSubList needle.toList hay.toList

/-- Python string slice `s[1:-1]`: drop the first and last characters. -/
def pyStrip1 (s : String) : String := String.mk (s.toList.drop 1).dropLast

/-- Python list slice `l[a:b]` for non-negative bounds. -/
def pySlice {α : Type} (l : List α) (a b : Nat) : List α := (l.take b).drop a

/-- Embeds `[i for i, n in enumerate(meta_csv) if "+" in n]` starting at
index `i0`. -/
def markerIndices : List String → Nat → List Nat
  | [], _ => []
  | t :: rest, i =>
      if pyInStr "+" t then i :: markerIndices rest (i + 1)
      else markerIndices rest (i + 1)

/-- Python `list.index(x)`: index of the first occurrence, if any
(`ValueError`, turned into `InvalidMetadata` by the caller, otherwise). -/
def pyIndex (l : List String) (x : String) : Option Nat :=
  match l with
  | [] => none
  | a :: t => if a = x then some 0 else (pyIndex t x).map (· + 1)

/-- Embeds the inner classification loop of `_extract_meters` over one
segment: state is (current meter name, accumulated submeter names, output so
far). -/
def segLoop : List String → String → List String → List String →
    String × List String × List String
  | [], meterName, subs, ret => (meterName, subs, ret)
  | v :: rest, meterName, subs, ret =>
      if pyInStr "." v then segLoop rest meterName subs ret
      else if pyInStr "#" v then segLoop rest meterName subs ret
      else
        let v2 := pyStrip1 v
        if pyInStr meterName v2 then segLoop rest meterName (subs ++ [v2]) ret
        else if pyInStr "-" v2 then segLoop rest meterName subs ret
        else if subs ≠ [] then segLoop rest v2 [] (ret ++ subs)
        else segLoop rest v2 [] (ret ++ [meterName])

/-- Embeds the outer loop of `_extract_meters` over the consecutive
marker-index pairs: for each segment read the meter name after the start
marker (Python indexing, so a start marker in the last position raises
IndexError), classify the segment tokens, and flush at segment end. -/
def segsLoop (meta : List String) : List (Nat × Nat) → List String →
    Except PyErr (List String)
  | [], ret => .ok ret
  | (s, e) :: rest, ret =>
    match pyGet meta ((s : Int) + 1) with
    | .error err => .error err
    | .ok tok =>
      let p := segLoop (pySlice meta (s + 2) e) (pyStrip1 tok) [] ret
      if p.2.1 ≠ [] then segsLoop meta rest (p.2.2 ++ p.2.1)
      else segsLoop meta rest (p.2.2 ++ [p.1])

/-- Embeds `parse._extract_meters`: indices of tokens containing `'+'`
(InvalidMetadata when there are none), the index of the `'"column"'` terminal
marker appended (InvalidMetadata when absent), then the segment loop over
consecutive index pairs. -/
def extract_meters (meta : List String) : Except PyErr (List String) :=
  let indices := markerIndices meta 0
  if indices = [] then .error .invalidMetadata
  else
    match pyIndex meta "\"column\"" with
    | none => .error .invalidMetadata
    | some ci =>
      let idxs := indices ++ [ci]
      segsLoop meta (idxs.zip idxs.tail) []

/-! ### Pairing meter names with decoded lists
(reading_service.py `readings_from_reading_service`) -/

/-- Python `list.pop()`: remove and return the last element; IndexError on an
empty list. -/
def pyPop {α : Type} (l : List α) : Option (α × List α) :=
  match l.getLast? with
  | none => none
  | some x => some (x, l.dropLast)

/-- Embeds the dict comprehension
`{meter_names.pop(): reading_list for reading_list in reading_gen}` of
`readings_from_reading_service`, with the decoded meter names and the
generator's reading lists passed as inputs: pairs each yielded list with a
name popped from the end of the name list (IndexError when names run out),
returning the pairs in insertion order together with the leftover names. -/
def pairAux (names : List String) (lists : List (List MeterReading))
    (acc : List (String × List MeterReading)) :
    Except PyErr (List (String × List MeterReading) × List String) :=
  match lists with
  | [] => .ok (acc, names)
  | l :: rest =>
    match pyPop names with
    | none => .error .indexError
    | some (n, names2) => pairAux names2 rest (acc ++ [(n, l)])

/-- Embeds lines 79-84 of reading_service.py: build the name-to-list pairing
and report the leftover names (the `if meter_names:` warning fires exactly
when the leftover list is non-empty). -/
def pairReadingLists (names : List String) (lists : List (List MeterReading)) :
    Except PyErr (List (String × List MeterReading) × List String) :=
  pairAux names lists []

/-! ### Well-formed combined-list entries (for stating the decoding claims) -/

/-- Is some Except value an `.ok`. -/
def exceptIsOk {ε α : Type} : Except ε α → Bool
  | .ok _ => true
  | .error _ => false

/-- The `.ok` payload of an Except value, with a default. -/
def exceptGetD {ε α : Type} (x : Except ε α) (d : α) : α :=
  match x with
  | .ok a => a
  | .error _ => d

/-- One well-formed combined-list entry as written on the stream: a value
token, the `'10'` marker, an encoded timestamp token, the `'9'` marker, then
filler tokens and the `'8'` terminator. -/
structure CEntry where
  val : String
  ts : String
  fill : List String

/-- The tokens of one combined-list entry, in stream order. -/
def entryTokens (e : CEntry) : List String :=
  e.val :: "10" :: e.ts :: "9" :: (e.fill ++ ["8"])

/-- A token that the combined-list scan does not treat as a marker. -/
def noMark (t : String) : Prop := t ≠ "9" ∧ t ≠ "11"

/-- Well-formedness of a combined-list entry: its value token parses as a
float, its timestamp token decodes, and none of its non-marker tokens
collide with the scan markers. -/
def entryOk (e : CEntry) : Prop :=
  noMark e.val ∧ noMark e.ts ∧ (∀ t ∈ e.fill, noMark t) ∧
    exceptIsOk (pyFloat e.val) = true ∧
    exceptIsOk (timestamp_from_encoded e.ts) = true

/-- The reading a well-formed entry encodes. -/
def entryReading (e : CEntry) : MeterReading :=
  ⟨exceptGetD (timestamp_from_encoded e.ts) 0, exceptGetD (pyFloat e.val) 0⟩

/-! ### Behaviour of one per-meter entry decode -/

theorem pme_tsback_valexp (off : Int) (csvd : List String)
    (c : List MeterReading) (s : Int) (tsTok vTok : String) (v : Int)
    (rc : MeterReading) (q : ℚ)
    (h1 : pyGet csvd (s - 6) = .ok tsTok) (h2 : tsTok ≠ "9")
    (h3 : pyInt tsTok = .ok v)
    (h4 : pyGet c (Int.fdiv v 3 + 2) = .ok rc)
    (h5 : pyGet csvd (s - 7) = .ok "10")
    (h6 : pyGet csvd (s - 8) = .ok vTok)
    (h7 : pyFloat vTok = .ok q) :
    processMeterEntry off csvd c s
      = .ok (s - 7, ⟨rc.timestamp + off * 3600, q⟩) := by
  unfold processMeterEntry
  rw [h1]
  simp only []
  rw [if_neg h2, h3]
  simp only []
  rw [h4]
  simp only []
  rw [h5]
  simp only []
  simp only [if_true]
  rw [show s - 7 - 1 = s - 8 by ring, h6]
  simp only []
  rw [h7]

theorem pme_tsexp_valback (off : Int) (csvd : List String)
    (c : List MeterReading) (s : Int) (encTok vSlot : String) (t v : Int)
    (rc : MeterReading)
    (h1 : pyGet csvd (s - 6) = .ok "9")
    (h2 : pyGet csvd (s - 7) = .ok encTok)
    (h3 : timestamp_from_encoded encTok = .ok t)
    (h4 : pyGet csvd (s - 8) = .ok vSlot) (h5 : vSlot ≠ "10")
    (h6 : pyInt vSlot = .ok v)
    (h7 : pyGet c (Int.fdiv v 3 + 2) = .ok rc) :
    processMeterEntry off csvd c s
      = .ok (s - 8, ⟨t + off * 3600, rc.kwh⟩) := by
  unfold processMeterEntry
  rw [h1]
  simp only []
  simp only [if_true]
  rw [h2]
  simp only []
  rw [h3]
  simp only []
  rw [h4]
  simp only []
  rw [if_neg h5, h6]
  simp only []
  rw [h7]

theorem pme_tsexp_valexp (off : Int) (csvd : List String)
    (c : List MeterReading) (s : Int) (encTok vTok : String) (t : Int) (q : ℚ)
    (h1 : pyGet csvd (s - 6) = .ok "9")
    (h2 : pyGet csvd (s - 7) = .ok encTok)
    (h3 : timestamp_from_encoded encTok = .ok t)
    (h4 : pyGet csvd (s - 8) = .ok "10")
    (h5 : pyGet csvd (s - 9) = .ok vTok)
    (h6 : pyFloat vTok = .ok q) :
    processMeterEntry off csvd c s
      = .ok (s - 8, ⟨t + off * 3600, q⟩) := by
  unfold processMeterEntry
  rw [h1]
  simp only []
  simp only [if_true]
  rw [h2]
  simp only []
  rw [h3]
  simp only []
  rw [h4]
  simp only []
  simp only [if_true]
  rw [show s - 8 - 1 = s - 9 by ring, h5]
  simp only []
  rw [h6]

theorem pme_tsback_valback (off : Int) (csvd : List String)
    (c : List MeterReading) (s : Int) (tsTok vSlot : String) (v1 v2 : Int)
    (rc1 rc2 : MeterReading)
    (h1 : pyGet csvd (s - 6) = .ok tsTok) (h2 : tsTok ≠ "9")
    (h3 : pyInt tsTok = .ok v1)
    (h4 : pyGet c (Int.fdiv v1 3 + 2) = .ok rc1)
    (h5 : pyGet csvd (s - 7) = .ok vSlot) (h6 : vSlot ≠ "10")
    (h7 : pyInt vSlot = .ok v2)
    (h8 : pyGet c (Int.fdiv v2 3 + 2) = .ok rc2) :
    processMeterEntry off csvd c s
      = .ok (s - 7, ⟨rc1.timestamp + off * 3600, rc2.kwh⟩) := by
  unfold processMeterEntry
  rw [h1]
  simp only []
  rw [if_neg h2, h3]
  simp only []
  rw [h4]
  simp only []
  rw [h5]
  simp only []
  rw [if_neg h6, h7]
  simp only []
  rw [h8]

theorem pme_tsback_valback_err (off : Int) (csvd : List String)
    (c : List MeterReading) (s : Int) (tsTok vSlot : String) (v1 v2 : Int)
    (rc1 : MeterReading)
    (h1 : pyGet csvd (s - 6) = .ok tsTok) (h2 : tsTok ≠ "9")
    (h3 : pyInt tsTok = .ok v1)
    (h4 : pyGet c (Int.fdiv v1 3 + 2) = .ok rc1)
    (h5 : pyGet csvd (s - 7) = .ok vSlot) (h6 : vSlot ≠ "10")
    (h7 : pyInt vSlot = .ok v2)
    (h8 : pyGet c (Int.fdiv v2 3 + 2) = .error .indexError) :
    processMeterEntry off csvd c s = .error .indexError := by
  unfold processMeterEntry
  rw [h1]
  simp only []
  rw [if_neg h2, h3]
  simp only []
  rw [h4]
  simp only []
  rw [h5]
  simp only []
  rw [if_neg h6, h7]
  simp only []
  rw [h8]

theorem pme_tsback_err (off : Int) (csvd : List String)
    (c : List MeterReading) (s : Int) (tsTok : String) (v : Int)
    (h1 : pyGet csvd (s - 6) = .ok tsTok) (h2 : tsTok ≠ "9")
    (h3 : pyInt tsTok = .ok v)
    (h4 : pyGet c (Int.fdiv v 3 + 2) = .error .indexError) :
    processMeterEntry off csvd c s = .error .indexError := by
  unfold processMeterEntry
  rw [h1]
  simp only []
  rw [if_neg h2, h3]
  simp only []
  rw [h4]

theorem pme_valback_err (off : Int) (csvd : List String)
    (c : List MeterReading) (s : Int) (encTok vSlot : String) (t v : Int)
    (h1 : pyGet csvd (s - 6) = .ok "9")
    (h2 : pyGet csvd (s - 7) = .ok encTok)
    (h3 : timestamp_from_encoded encTok = .ok t)
    (h4 : pyGet csvd (s - 8) = .ok vSlot) (h5 : vSlot ≠ "10")
    (h6 : pyInt vSlot = .ok v)
    (h7 : pyGet c (Int.fdiv v 3 + 2) = .error .indexError) :
    processMeterEntry off csvd c s = .error .indexError := by
  unfold processMeterEntry
  rw [h1]
  simp only []
  simp only [if_true]
  rw [h2]
  simp only []
  rw [h3]
  simp only []
  rw [h4]
  simp only []
  rw [if_neg h5, h6]
  simp only []
  rw [h7]

/-! ### Fuel-indexed evaluation companions
Well-founded recursion does not compute by `rfl`, so each backward-scan
function gets a fuel-indexed structurally recursive companion, proved equal
for sufficient fuel; concrete decodes are evaluated through these. -/

def findMarkerF (csvd : List String) : Nat → Int → Except PyErr Int
  | 0, idx => .ok idx
  | fuel + 1, idx =>
    if idx < 0 then .ok idx
    else
      match pyGet csvd idx with
      | .error e => .error e
      | .ok t =>
        if t = "9" ∨ t = "11" then .ok idx else findMarkerF csvd fuel (idx - 1)

theorem findMarkerF_eq (csvd : List String) :
    ∀ (fuel : Nat) (idx : Int), (idx + 1).toNat < fuel →
      findMarkerF csvd fuel idx = findMarker csvd idx := by
  intro fuel
  induction fuel with
  | zero => intro idx h; omega
  | succ n ih =>
    intro idx h
    rw [findMarker]
    simp only [findMarkerF]
    by_cases h0 : idx < 0
    · simp only [h0, if_true]
    · simp only [h0, if_false]
      cases hg : pyGet csvd idx with
      | error e => simp only [hg]
      | ok t =>
        simp only [hg]
        by_cases hm : t = "9" ∨ t = "11"
        · simp only [hm, if_true]
        · simp only [hm, if_false]
          exact ih (idx - 1) (by omega)

def readCombinedAuxF (csvd : List String) :
    Nat → Int → List MeterReading → Except PyErr (List MeterReading × Bool)
  | 0, _, acc => .ok (acc, false)
  | fuel + 1, idx, acc =>
    if idx < 0 then .ok (acc, false)
    else
      match findMarkerF csvd (fuel + 1) idx with
      | .error e => .error e
      | .ok m =>
        if m < 0 then .ok (acc, true)
        else
          match pyGet csvd (m - 2) with
          | .error e => .error e
          | .ok t2 =>
            if t2 ≠ "10" then .ok (acc, true)
            else
              match pyGet csvd m with
              | .error e => .error e
              | .ok tm =>
                if tm = "11" then .ok (acc, false)
                else
                  match pyGet csvd (m - 1) with
                  | .error e => .error e
                  | .ok tsTok =>
                    match timestamp_from_encoded tsTok with
                    | .error e => .error e
                    | .ok ts =>
                      match pyGet csvd (m - 3) with
                      | .error e => .error e
                      | .ok vTok =>
                        match pyFloat vTok with
                        | .error e => .error e
                        | .ok q => readCombinedAuxF csvd fuel (m - 1) (acc ++ [⟨ts, q⟩])

theorem readCombinedAuxF_eq (csvd : List String) :
    ∀ (fuel : Nat) (idx : Int) (acc : List MeterReading), (idx + 1).toNat < fuel →
      readCombinedAuxF csvd fuel idx acc = readCombinedAux csvd idx acc := by
  intro fuel
  induction fuel with
  | zero => intro idx acc h; omega
  | succ n ih =>
    intro idx acc h
    rw [readCombinedAux]
    simp only [readCombinedAuxF]
    by_cases h0 : idx < 0
    · rw [if_pos h0, if_pos h0]
    · rw [if_neg h0, if_neg h0]
      rw [findMarkerF_eq csvd (n + 1) idx h]
      cases hg : findMarker csvd idx with
      | error e => simp only [hg]
      | ok m =>
        have hle := findMarker_le hg
        simp only [hg]
        by_cases hm0 : m < 0
        · rw [if_pos hm0, dif_pos hm0]
        · rw [if_neg hm0, dif_neg hm0]
          cases h2 : pyGet csvd (m - 2) with
          | error e => simp only [h2]
          | ok t2 =>
            simp only [h2]
            by_cases ht2 : t2 ≠ "10"
            · rw [if_pos ht2, if_pos ht2]
            · rw [if_neg ht2, if_neg ht2]
              cases h3 : pyGet csvd m with
              | error e => simp only [h3]
              | ok tm =>
                simp only [h3]
                by_cases htm : tm = "11"
                · rw [if_pos htm, if_pos htm]
                · rw [if_neg htm, if_neg htm]
                  cases h4 : pyGet csvd (m - 1) with
                  | error e => simp only [h4]
                  | ok tsTok =>
                    simp only [h4]
                    cases h5 : timestamp_from_encoded tsTok with
                    | error e => simp only [h5]
                    | ok ts =>
                      simp only [h5]
                      cases h6 : pyGet csvd (m - 3) with
                      | error e => simp only [h6]
                      | ok vTok =>
                        simp only [h6]
                        cases h7 : pyFloat vTok with
                        | error e => simp only [h7]
                        | ok q =>
                          simp only [h7]
                          exact ih (m - 1) _ (by omega)

theorem read_combined_eval (csvd : List String) :
    read_combined csvd =
      match readCombinedAuxF csvd (csvd.length + 1) ((csvd.length : Int) - 1) [] with
      | .error e => .error e
      | .ok (l, w) => .ok (l.reverse, w) := by
  rw [read_combined, readCombinedAuxF_eq csvd (csvd.length + 1) _ [] (by omega)]


def findStopF (csvd : List String) : Nat → Int → Except PyErr Int
  | 0, idx => .ok idx
  | fuel + 1, idx =>
    if idx < 0 then .ok idx
    else
      match pyGet csvd idx with
      | .error e => .error e
      | .ok t =>
        if t = "8" ∨ t = "24" ∨ t = "3" then .ok idx
        else findStopF csvd fuel (idx - 1)

theorem findStopF_eq (csvd : List String) :
    ∀ (fuel : Nat) (idx : Int), (idx + 1).toNat < fuel →
      findStopF csvd fuel idx = findStop csvd idx := by
  intro fuel
  induction fuel with
  | zero => intro idx h; omega
  | succ n ih =>
    intro idx h
    rw [findStop]
    simp only [findStopF]
    by_cases h0 : idx < 0
    · rw [if_pos h0, if_pos h0]
    · rw [if_neg h0, if_neg h0]
      cases hg : pyGet csvd idx with
      | error e => simp only [hg]
      | ok t =>
        simp only [hg]
        by_cases hm : t = "8" ∨ t = "24" ∨ t = "3"
        · rw [if_pos hm, if_pos hm]
        · rw [if_neg hm, if_neg hm]
          exact ih (idx - 1) (by omega)

def getListReadingsAuxF (off : Int) (csvd : List String)
    (combined : List MeterReading) :
    Nat → Int → List MeterReading → Except PyErr (Int × List MeterReading)
  | 0, idx, readings => .ok (idx, readings)
  | fuel + 1, idx, readings =>
    if idx < 0 then .ok (idx, readings)
    else
      match findStopF csvd (fuel + 1) idx with
      | .error e => .error e
      | .ok s =>
        if s < 8 then .ok (s, readings)
        else
          match pyGet csvd s with
          | .error e => .error e
          | .ok t =>
            if t ≠ "8" then .ok (s, readings)
            else
              match processMeterEntry off csvd combined s with
              | .error e => .error e
              | .ok (k, r) =>
                getListReadingsAuxF off csvd combined fuel k (readings ++ [r])

theorem getListReadingsAuxF_eq (off : Int) (csvd : List String)
    (combined : List MeterReading) :
    ∀ (fuel : Nat) (idx : Int) (readings : List MeterReading),
      (idx + 1).toNat < fuel →
      getListReadingsAuxF off csvd combined fuel idx readings
        = getListReadingsAux off csvd combined idx readings := by
  intro fuel
  induction fuel with
  | zero => intro idx readings h; omega
  | succ n ih =>
    intro idx readings h
    rw [getListReadingsAux]
    simp only [getListReadingsAuxF]
    by_cases h0 : idx < 0
    · rw [if_pos h0, if_pos h0]
    · rw [if_neg h0, if_neg h0]
      rw [findStopF_eq csvd (n + 1) idx h]
      cases hg : findStop csvd idx with
      | error e => simp only [hg]
      | ok s =>
        have hle := findStop_le hg
        simp only [hg]
        by_cases hs8 : s < 8
        · rw [if_pos hs8, dif_pos hs8]
        · rw [if_neg hs8, dif_neg hs8]
          cases h2 : pyGet csvd s with
          | error e => simp only [h2]
          | ok t =>
            simp only [h2]
            by_cases ht : t ≠ "8"
            · rw [if_pos ht, if_pos ht]
            · rw [if_neg ht, if_neg ht]
              cases h3 : processMeterEntry off csvd combined s with
              | error e => simp only [h3]
              | ok p =>
                have hk := processMeterEntry_le (k := p.1) (r := p.2)
                  (by rw [h3])
                simp only [h3]
                exact ih p.1 _ (by omega)

theorem get_list_readings_eval (off : Int) (csvd : List String) (idx : Int)
    (combined : List MeterReading) :
    get_list_readings off csvd idx combined
      = getListReadingsAuxF off csvd combined ((idx + 1).toNat + 1) idx [] := by
  rw [get_list_readings,
    getListReadingsAuxF_eq off csvd combined ((idx + 1).toNat + 1) idx [] (by omega)]

theorem findMarker_eval (csvd : List String) (idx : Int) :
    findMarker csvd idx = findMarkerF csvd ((idx + 1).toNat + 1) idx := by
  rw [findMarkerF_eq csvd ((idx + 1).toNat + 1) idx (by omega)]

theorem findStop_eval (csvd : List String) (idx : Int) :
    findStop csvd idx = findStopF csvd ((idx + 1).toNat + 1) idx := by
  rw [findStopF_eq csvd ((idx + 1).toNat + 1) idx (by omega)]

theorem glr_step_err (off : Int) (csvd : List String) (c : List MeterReading)
    (idx s : Int) (e : PyErr)
    (h0 : ¬ idx < 0) (hs : findStop csvd idx = .ok s) (h8 : ¬ s < 8)
    (ht : pyGet csvd s = .ok "8")
    (hp : processMeterEntry off csvd c s = .error e) :
    get_list_readings off csvd idx c = .error e := by
  rw [get_list_readings, getListReadingsAux, if_neg h0, hs]
  simp only []
  rw [dif_neg h8, ht]
  simp only []
  rw [if_neg (fun hne => hne rfl : ¬ ("8" : String) ≠ "8"), hp]

/-- C1: in a per-meter decode by `_get_list_readings`, an entry whose
timestamp or value slot holds a back-reference token `v` instead of the
`'9'`/`'10'` marker resolves it to combined-list index
`j = floor(v / 3) + 2`: a back-referenced timestamp slot yields
`combined[j].timestamp` (then subject to the configured hour offset), a
back-referenced value slot yields `combined[j].kwh` — including entries
back-referencing in both slots at once — and the resulting reading is
identical to what an explicit encoding of that timestamp/value would
produce. -/
theorem claim_C1 (off : Int) (csvd : List String) (c : List MeterReading)
    (s : Int) :
    (∀ (tsTok vTok : String) (v : Int) (rc : MeterReading) (q : ℚ),
      pyGet csvd (s - 6) = .ok tsTok → tsTok ≠ "9" → pyInt tsTok = .ok v →
      pyGet c (Int.fdiv v 3 + 2) = .ok rc →
      pyGet csvd (s - 7) = .ok "10" → pyGet csvd (s - 8) = .ok vTok →
      pyFloat vTok = .ok q →
      processMeterEntry off csvd c s
        = .ok (s - 7, ⟨rc.timestamp + off * 3600, q⟩))
    ∧ (∀ (encTok vSlot : String) (t v : Int) (rc : MeterReading),
      pyGet csvd (s - 6) = .ok "9" → pyGet csvd (s - 7) = .ok encTok →
      timestamp_from_encoded encTok = .ok t →
      pyGet csvd (s - 8) = .ok vSlot → vSlot ≠ "10" → pyInt vSlot = .ok v →
      pyGet c (Int.fdiv v 3 + 2) = .ok rc →
      processMeterEntry off csvd c s = .ok (s - 8, ⟨t + off * 3600, rc.kwh⟩))
    ∧ (∀ (tsTok vSlot : String) (v1 v2 : Int) (rc1 rc2 : MeterReading),
      pyGet csvd (s - 6) = .ok tsTok → tsTok ≠ "9" → pyInt tsTok = .ok v1 →
      pyGet c (Int.fdiv v1 3 + 2) = .ok rc1 →
      pyGet csvd (s - 7) = .ok vSlot → vSlot ≠ "10" → pyInt vSlot = .ok v2 →
      pyGet c (Int.fdiv v2 3 + 2) = .ok rc2 →
      processMeterEntry off csvd c s
        = .ok (s - 7, ⟨rc1.timestamp + off * 3600, rc2.kwh⟩))
    ∧ (∀ (tsTok vTok : String) (v : Int) (rc : MeterReading) (q : ℚ)
        (csvd' : List String) (s' : Int) (encTok : String),
      pyGet csvd (s - 6) = .ok tsTok → tsTok ≠ "9" → pyInt tsTok = .ok v →
      pyGet c (Int.fdiv v 3 + 2) = .ok rc →
      pyGet csvd (s - 7) = .ok "10" → pyGet csvd (s - 8) = .ok vTok →
      pyFloat vTok = .ok q →
      pyGet csvd' (s' - 6) = .ok "9" → pyGet csvd' (s' - 7) = .ok encTok →
      timestamp_from_encoded encTok = .ok rc.timestamp →
      pyGet csvd' (s' - 8) = .ok "10" → pyGet csvd' (s' - 9) = .ok vTok →
      ∃ r : MeterReading,
        processMeterEntry off csvd c s = .ok (s - 7, r) ∧
        processMeterEntry off csvd' c s' = .ok (s' - 8, r))
    ∧ (∀ (tsTok vSlot : String) (v1 v2 : Int) (rc1 rc2 : MeterReading)
        (csvd' : List String) (s' : Int) (encTok vTok : String),
      pyGet csvd (s - 6) = .ok tsTok → tsTok ≠ "9" → pyInt tsTok = .ok v1 →
      pyGet c (Int.fdiv v1 3 + 2) = .ok rc1 →
      pyGet csvd (s - 7) = .ok vSlot → vSlot ≠ "10" → pyInt vSlot = .ok v2 →
      pyGet c (Int.fdiv v2 3 + 2) = .ok rc2 →
      pyGet csvd' (s' - 6) = .ok "9" → pyGet csvd' (s' - 7) = .ok encTok →
      timestamp_from_encoded encTok = .ok rc1.timestamp →
      pyGet csvd' (s' - 8) = .ok "10" → pyGet csvd' (s' - 9) = .ok vTok →
      pyFloat vTok = .ok rc2.kwh →
      ∃ r : MeterReading,
        processMeterEntry off csvd c s = .ok (s - 7, r) ∧
        processMeterEntry off csvd' c s' = .ok (s' - 8, r)) := by
  refine ⟨?_, ?_, ?_, ?_, ?_⟩
  · intro tsTok vTok v rc q h1 h2 h3 h4 h5 h6 h7
    exact pme_tsback_valexp off csvd c s tsTok vTok v rc q h1 h2 h3 h4 h5 h6 h7
  · intro encTok vSlot t v rc h1 h2 h3 h4 h5 h6 h7
    exact pme_tsexp_valback off csvd c s encTok vSlot t v rc h1 h2 h3 h4 h5 h6 h7
  · intro tsTok vSlot v1 v2 rc1 rc2 h1 h2 h3 h4 h5 h6 h7 h8
    exact pme_tsback_valback off csvd c s tsTok vSlot v1 v2 rc1 rc2
      h1 h2 h3 h4 h5 h6 h7 h8
  · intro tsTok vTok v rc q csvd' s' encTok h1 h2 h3 h4 h5 h6 h7 g1 g2 g3 g4 g5
    exact ⟨⟨rc.timestamp + off * 3600, q⟩,
      pme_tsback_valexp off csvd c s tsTok vTok v rc q h1 h2 h3 h4 h5 h6 h7,
      pme_tsexp_valexp off csvd' c s' encTok vTok rc.timestamp q g1 g2 g3 g4 g5 h7⟩
  · intro tsTok vSlot v1 v2 rc1 rc2 csvd' s' encTok vTok
      h1 h2 h3 h4 h5 h6 h7 h8 g1 g2 g3 g4 g5 g6
    exact ⟨⟨rc1.timestamp + off * 3600, rc2.kwh⟩,
      pme_tsback_valback off csvd c s tsTok vSlot v1 v2 rc1 rc2
        h1 h2 h3 h4 h5 h6 h7 h8,
      pme_tsexp_valexp off csvd' c s' encTok vTok rc1.timestamp rc2.kwh
        g1 g2 g3 g4 g5 g6⟩

/-- C1 witness: a concrete entry back-referencing in both slots (`-7` for the
timestamp, `-10` for the value) takes its timestamp from the last and its
value from the first element of a two-element combined list. -/
theorem claim_C1_witness :
    processMeterEntry 0 ["-10", "-7"] [⟨5, 2⟩, ⟨7, 3⟩] 7
      = .ok (0, ⟨7, 2⟩) := by
  have h := (claim_C1 0 ["-10", "-7"] [⟨5, 2⟩, ⟨7, 3⟩] 7).2.2.1
    "-7" "-10" (-7) (-10) ⟨7, 3⟩ ⟨5, 2⟩
    (by rfl) (by decide) (by rfl) (by rfl) (by rfl) (by decide) (by rfl)
    (by rfl)
  norm_num at h
  exact h

/-- C4: during a per-meter decode, a back-reference whose resolved index
`j = floor(v / 3) + 2` lies outside the combined list's bounds (so Python
indexing raises) is a hard failure: the IndexError propagates out of
`_get_list_readings`; it is never recovered or converted into a partial
result.  This holds for a failing timestamp-slot back-reference, for a
failing value-slot back-reference behind an explicitly encoded timestamp,
and for a failing value-slot back-reference behind an in-bounds
timestamp-slot back-reference. -/
theorem claim_C4 (off : Int) (csvd : List String) (c : List MeterReading)
    (idx s : Int) :
    (∀ (tsTok : String) (v : Int),
      ¬ idx < 0 → findStop csvd idx = .ok s → ¬ s < 8 →
      pyGet csvd s = .ok "8" →
      pyGet csvd (s - 6) = .ok tsTok → tsTok ≠ "9" → pyInt tsTok = .ok v →
      pyGet c (Int.fdiv v 3 + 2) = .error .indexError →
      get_list_readings off csvd idx c = .error .indexError)
    ∧ (∀ (encTok vSlot : String) (t v : Int),
      ¬ idx < 0 → findStop csvd idx = .ok s → ¬ s < 8 →
      pyGet csvd s = .ok "8" →
      pyGet csvd (s - 6) = .ok "9" → pyGet csvd (s - 7) = .ok encTok →
      timestamp_from_encoded encTok = .ok t →
      pyGet csvd (s - 8) = .ok vSlot → vSlot ≠ "10" → pyInt vSlot = .ok v →
      pyGet c (Int.fdiv v 3 + 2) = .error .indexError →
      get_list_readings off csvd idx c = .error .indexError)
    ∧ (∀ (tsTok vSlot : String) (v1 v2 : Int) (rc1 : MeterReading),
      ¬ idx < 0 → findStop csvd idx = .ok s → ¬ s < 8 →
      pyGet csvd s = .ok "8" →
      pyGet csvd (s - 6) = .ok tsTok → tsTok ≠ "9" → pyInt tsTok = .ok v1 →
      pyGet c (Int.fdiv v1 3 + 2) = .ok rc1 →
      pyGet csvd (s - 7) = .ok vSlot → vSlot ≠ "10" → pyInt vSlot = .ok v2 →
      pyGet c (Int.fdiv v2 3 + 2) = .error .indexError →
      get_list_readings off csvd idx c = .error .indexError) := by
  refine ⟨?_, ?_, ?_⟩
  · intro tsTok v h0 hs h8 ht h1 h2 h3 h4
    exact glr_step_err off csvd c idx s _ h0 hs h8 ht
      (pme_tsback_err off csvd c s tsTok v h1 h2 h3 h4)
  · intro encTok vSlot t v h0 hs h8 ht h1 h2 h3 h4 h5 h6 h7
    exact glr_step_err off csvd c idx s _ h0 hs h8 ht
      (pme_valback_err off csvd c s encTok vSlot t v h1 h2 h3 h4 h5 h6 h7)
  · intro tsTok vSlot v1 v2 rc1 h0 hs h8 ht h1 h2 h3 h4 h5 h6 h7 h9
    exact glr_step_err off csvd c idx s _ h0 hs h8 ht
      (pme_tsback_valback_err off csvd c s tsTok vSlot v1 v2 rc1
        h1 h2 h3 h4 h5 h6 h7 h9)

/-- C4 witness: behind an in-bounds timestamp back-reference `-7`, the
out-of-bounds value back-reference `-100` (resolved index `-32` into a
two-element combined list) makes the whole per-meter decode fail with
IndexError. -/
theorem claim_C4_witness :
    get_list_readings 0 ["x", "-100", "-7", "0", "0", "0", "0", "0", "8"] 8
      [⟨5, 2⟩, ⟨7, 3⟩] = .error .indexError := by
  exact (claim_C4 0 ["x", "-100", "-7", "0", "0", "0", "0", "0", "8"]
      [⟨5, 2⟩, ⟨7, 3⟩] 8 8).2.2
    "-7" "-100" (-7) (-100) ⟨7, 3⟩ (by decide) (by rw [findStop_eval]; rfl)
    (by decide) (by rfl) (by rfl) (by decide) (by rfl) (by rfl) (by rfl)
    (by decide) (by rfl) (by rfl)

/-- C10: a back-reference token `v ≤ -7` always resolves to a negative
combined-list index `j = floor(v / 3) + 2`; when `|j|` is within the length
of the combined list, Python indexing does not fail but counts backward from
the end, selecting the element at position `len + j`, and the per-meter entry
decode proceeds with that element. -/
theorem claim_C10 (c : List MeterReading) (v : Int) (hv : v ≤ -7) :
    Int.fdiv v 3 + 2 < 0
    ∧ (∀ (n : Nat) (hn : n < c.length),
        (n : Int) = (c.length : Int) + (Int.fdiv v 3 + 2) →
        pyGet c (Int.fdiv v 3 + 2) = .ok (c.get ⟨n, hn⟩))
    ∧ (∀ (off : Int) (csvd : List String) (s : Int) (tsTok vTok : String)
        (q : ℚ) (n : Nat) (hn : n < c.length),
      pyGet csvd (s - 6) = .ok tsTok → tsTok ≠ "9" → pyInt tsTok = .ok v →
      (n : Int) = (c.length : Int) + (Int.fdiv v 3 + 2) →
      pyGet csvd (s - 7) = .ok "10" → pyGet csvd (s - 8) = .ok vTok →
      pyFloat vTok = .ok q →
      processMeterEntry off csvd c s
        = .ok (s - 7, ⟨(c.get ⟨n, hn⟩).timestamp + off * 3600, q⟩)) := by
  have hj : Int.fdiv v 3 + 2 < 0 := by
    rw [Int.fdiv_eq_ediv v (by omega : (0 : Int) ≤ 3)]
    omega
  have hget : ∀ (n : Nat) (hn : n < c.length),
      (n : Int) = (c.length : Int) + (Int.fdiv v 3 + 2) →
      pyGet c (Int.fdiv v 3 + 2) = .ok (c.get ⟨n, hn⟩) := by
    intro n hn heq
    rw [pyGet_neg c _ hj (by omega)]
    congr 1
    apply Option.some.inj
    rw [List.get_eq_getElem, List.get_eq_getElem, ← List.getElem?_eq_getElem,
      ← List.getElem?_eq_getElem]
    congr 1
    simp only [Fin.val_mk]
    omega
  refine ⟨hj, hget, ?_⟩
  intro off csvd s tsTok vTok q n hn h1 h2 h3 heq h5 h6 h7
  exact pme_tsback_valexp off csvd c s tsTok vTok v (c.get ⟨n, hn⟩) q
    h1 h2 h3 (hget n hn heq) h5 h6 h7

/-- C10 witness: `-7` resolves to index `-1`, the last element of the
combined list, and the entry decode uses it. -/
theorem claim_C10_witness :
    Int.fdiv (-7) 3 + 2 < 0
    ∧ pyGet [(⟨5, 2⟩ : MeterReading), ⟨7, 3⟩] (Int.fdiv (-7) 3 + 2) = .ok ⟨7, 3⟩
    ∧ processMeterEntry 1 ["2.5", "10", "-7"] [⟨5, 2⟩, ⟨7, 3⟩] 8
        = .ok (8 - 7, ⟨7 + 1 * 3600, exceptGetD (pyFloat "2.5") 0⟩) := by
  obtain ⟨hj, hget, hpme⟩ := claim_C10 [(⟨5, 2⟩ : MeterReading), ⟨7, 3⟩] (-7)
    (by decide)
  refine ⟨hj, ?_, ?_⟩
  · exact hget 1 (by decide) (by decide)
  · exact hpme 1 ["2.5", "10", "-7"] 8 "-7" "2.5"
      (exceptGetD (pyFloat "2.5") 0) 1 (by decide)
      (by rfl) (by decide) (by rfl) (by decide) (by rfl) (by rfl) (by rfl)

theorem processMeterEntry_src {off : Int} {csvd : List String}
    {c : List MeterReading} {s k : Int} {r : MeterReading}
    (h : processMeterEntry off csvd c s = .ok (k, r)) :
    (∃ tok ∈ csvd, timestamp_from_encoded tok = .ok (r.timestamp - off * 3600))
    ∨ (∃ rc ∈ c, rc.timestamp = r.timestamp - off * 3600) := by
  unfold processMeterEntry at h
  rcases h6 : pyGet csvd (s - 6) with e | tSlot <;> rw [h6] at h
  · cases h
  · simp only [] at h
    by_cases h9 : tSlot = "9"
    · rw [if_pos h9] at h
      rcases h7 : pyGet csvd (s - 7) with e | tok <;> rw [h7] at h
      · cases h
      · simp only [] at h
        rcases hdec : timestamp_from_encoded tok with e | ts <;> rw [hdec] at h
        · cases h
        · simp only [] at h
          left
          refine ⟨tok, pyGet_mem h7, ?_⟩
          rcases hk : pyGet csvd (s - 8) with e | vSlot <;> rw [hk] at h
          · cases h
          · simp only [] at h
            split at h
            · rcases h1 : pyGet csvd (s - 8 - 1) with e | vt <;> rw [h1] at h
              · cases h
              · simp only [] at h
                rcases h2 : pyFloat vt with e | q <;> rw [h2] at h
                · cases h
                · simp only [] at h
                  injection h with h3
                  injection h3 with h4 h5
                  rw [← h5, hdec]
                  simp only []
                  congr 1
                  ring
            · rcases h1 : pyInt vSlot with e | v <;> rw [h1] at h
              · cases h
              · simp only [] at h
                rcases h2 : pyGet c (Int.fdiv v 3 + 2) with e | rr <;> rw [h2] at h
                · cases h
                · simp only [] at h
                  injection h with h3
                  injection h3 with h4 h5
                  rw [← h5, hdec]
                  simp only []
                  congr 1
                  ring
    · rw [if_neg h9] at h
      rcases h7 : pyInt tSlot with e | v <;> rw [h7] at h
      · cases h
      · simp only [] at h
        rcases h8 : pyGet c (Int.fdiv v 3 + 2) with e | rr <;> rw [h8] at h
        · cases h
        · simp only [] at h
          right
          refine ⟨rr, pyGet_mem h8, ?_⟩
          rcases hk : pyGet csvd (s - 7) with e | vSlot <;> rw [hk] at h
          · cases h
          · simp only [] at h
            split at h
            · rcases h1 : pyGet csvd (s - 7 - 1) with e | vt <;> rw [h1] at h
              · cases h
              · simp only [] at h
                rcases h2 : pyFloat vt with e | q <;> rw [h2] at h
                · cases h
                · simp only [] at h
                  injection h with h3
                  injection h3 with h4 h5
                  rw [← h5]
                  simp only []
                  ring
            · rcases h1 : pyInt vSlot with e | v2 <;> rw [h1] at h
              · cases h
              · simp only [] at h
                rcases h2 : pyGet c (Int.fdiv v2 3 + 2) with e | rr2 <;> rw [h2] at h
                · cases h
                · simp only [] at h
                  injection h with h3
                  injection h3 with h4 h5
                  rw [← h5]
                  simp only []
                  ring

theorem readCombinedAuxF_src (csvd : List String) :
    ∀ (fuel : Nat) (idx : Int) (acc l : List MeterReading) (w : Bool),
      readCombinedAuxF csvd fuel idx acc = .ok (l, w) →
      (∀ r ∈ acc, ∃ tok ∈ csvd, timestamp_from_encoded tok = .ok r.timestamp) →
      ∀ r ∈ l, ∃ tok ∈ csvd, timestamp_from_encoded tok = .ok r.timestamp := by
  intro fuel
  induction fuel with
  | zero =>
    intro idx acc l w h hacc
    simp only [readCombinedAuxF] at h
    injection h with h2
    injection h2 with h3 h4
    rw [← h3]
    exact hacc
  | succ n ih =>
    intro idx acc l w h hacc
    simp only [readCombinedAuxF] at h
    split at h
    · injection h with h2
      injection h2 with h3 h4
      rw [← h3]
      exact hacc
    · split at h
      · cases h
      · split at h
        · injection h with h2
          injection h2 with h3 h4
          rw [← h3]
          exact hacc
        · split at h
          · cases h
          · split at h
            · injection h with h2
              injection h2 with h3 h4
              rw [← h3]
              exact hacc
            · split at h
              · cases h
              · split at h
                · injection h with h2
                  injection h2 with h3 h4
                  rw [← h3]
                  exact hacc
                · split at h
                  · cases h
                  · rename_i tsTok htsTok
                    split at h
                    · cases h
                    · rename_i ts hts
                      split at h
                      · cases h
                      · split at h
                        · cases h
                        · refine ih _ _ _ _ h ?_
                          intro r hr
                          rcases List.mem_append.mp hr with hr1 | hr0
                          · exact hacc r hr1
                          · have hr2 := List.mem_singleton.mp hr0
                            exact ⟨tsTok, pyGet_mem htsTok, by rw [hr2, hts]⟩

theorem getListReadingsAuxF_src (off : Int) (csvd : List String)
    (c : List MeterReading) :
    ∀ (fuel : Nat) (idx : Int) (acc : List MeterReading) (k : Int)
      (l : List MeterReading),
      getListReadingsAuxF off csvd c fuel idx acc = .ok (k, l) →
      (∀ r ∈ acc,
        (∃ tok ∈ csvd, timestamp_from_encoded tok = .ok (r.timestamp - off * 3600))
        ∨ (∃ rc ∈ c, rc.timestamp = r.timestamp - off * 3600)) →
      ∀ r ∈ l,
        (∃ tok ∈ csvd, timestamp_from_encoded tok = .ok (r.timestamp - off * 3600))
        ∨ (∃ rc ∈ c, rc.timestamp = r.timestamp - off * 3600) := by
  intro fuel
  induction fuel with
  | zero =>
    intro idx acc k l h hacc
    simp only [getListReadingsAuxF] at h
    injection h with h2
    injection h2 with h3 h4
    rw [← h4]
    exact hacc
  | succ n ih =>
    intro idx acc k l h hacc
    simp only [getListReadingsAuxF] at h
    split at h
    · injection h with h2
      injection h2 with h3 h4
      rw [← h4]
      exact hacc
    · split at h
      · cases h
      · split at h
        · injection h with h2
          injection h2 with h3 h4
          rw [← h4]
          exact hacc
        · split at h
          · cases h
          · split at h
            · injection h with h2
              injection h2 with h3 h4
              rw [← h4]
              exact hacc
            · split at h
              · cases h
              · rename_i k2 r2 hp
                refine ih _ _ _ _ h ?_
                intro r hr
                rcases List.mem_append.mp hr with hr1 | hr0
                · exact hacc r hr1
                · rw [List.mem_singleton.mp hr0]
                  exact processMeterEntry_src hp

/-- C3: with the process-wide hour offset configured to `off`, every reading
produced by the per-meter decoder `_get_list_readings` has `off` hours
(`off * 3600` seconds) added to its timestamp — whether the timestamp was
explicit (decoded from a stream token) or resolved through a back-reference
into the combined list — while every reading produced by the combined-list
decoder `_read_combined` carries a timestamp decoded directly from a stream
token, with no offset applied. -/
theorem claim_C3 (off : Int) (csvd : List String) (c : List MeterReading)
    (idx : Int) :
    (∀ (l : List MeterReading) (w : Bool),
      read_combined csvd = .ok (l, w) →
      ∀ r ∈ l, ∃ tok ∈ csvd, timestamp_from_encoded tok = .ok r.timestamp)
    ∧ (∀ (k : Int) (l : List MeterReading),
      get_list_readings off csvd idx c = .ok (k, l) →
      ∀ r ∈ l,
        (∃ tok ∈ csvd, timestamp_from_encoded tok = .ok (r.timestamp - off * 3600))
        ∨ (∃ rc ∈ c, rc.timestamp = r.timestamp - off * 3600)) := by
  constructor
  · intro l w h r hr
    rw [read_combined] at h
    rcases haux : readCombinedAux csvd ((csvd.length : Int) - 1) [] with e | p <;>
      rw [haux] at h
    · cases h
    · simp only [] at h
      rw [← readCombinedAuxF_eq csvd (((csvd.length : Int) - 1 + 1).toNat + 1) _ []
        (by omega)] at haux
      injection h with h2
      injection h2 with h3 h4
      refine readCombinedAuxF_src csvd _ _ _ _ _ (by rw [haux]) (by intro r hr; cases hr)
        r ?_
      rw [← h3] at hr
      exact List.mem_reverse.mp hr
  · intro k l h r hr
    rw [get_list_readings,
      ← getListReadingsAuxF_eq off csvd c ((idx + 1).toNat + 1) idx [] (by omega)] at h
    exact getListReadingsAuxF_src off csvd c _ _ _ _ _ h
      (by intro r hr; cases hr) r hr

/-- C3 witness: a combined-list decode yields the raw decoded timestamp, and
a per-meter decode with a 2 hour offset yields a timestamp that is the
decoded source timestamp plus 7200 seconds. -/
theorem claim_C3_witness :
    (∃ tok ∈ ["x", "x", "11", "1.5", "10", "AA", "9", "0", "0", "1", "0", "0", "8"],
      timestamp_from_encoded tok
        = .ok ((⟨0, exceptGetD (pyFloat "1.5") 0⟩ : MeterReading).timestamp))
    ∧ ((∃ tok ∈ ["-7", "AA", "9", "0", "0", "0", "0", "0", "8"],
        timestamp_from_encoded tok
          = .ok ((⟨7200, 4⟩ : MeterReading).timestamp - 2 * 3600))
      ∨ (∃ rc ∈ [(⟨5, 4⟩ : MeterReading)],
        rc.timestamp = (⟨7200, 4⟩ : MeterReading).timestamp - 2 * 3600)) := by
  constructor
  · refine (claim_C3 0 ["x", "x", "11", "1.5", "10", "AA", "9", "0", "0", "1", "0", "0", "8"]
      [] 0).1 [⟨0, exceptGetD (pyFloat "1.5") 0⟩] true ?_ _ (by simp)
    rw [read_combined_eval]
    rfl
  · refine (claim_C3 2 ["-7", "AA", "9", "0", "0", "0", "0", "0", "8"]
      [⟨5, 4⟩] 8).2 (-1) [⟨7200, 4⟩] ?_ _ (by simp)
    rw [get_list_readings_eval]
    rfl

/-- C5 (amended): after the inner scan of `_read_combined` stops at position
`m`, the loop (a) emits the recoverable "unexpected exit" diagnostic and
returns the readings accumulated so far when the scan ran off the front of
the stream (`m < 0`); (b) emits the diagnostic and returns the accumulated
readings when the token two positions before the found `'9'` or `'11'`
marker (Python indexing, wrapping for `m < 2`) is not the companion marker
`'10'`; and (c) stops normally without the diagnostic on finding `'11'` only
when that token is `'10'`. -/
theorem claim_C5_amended (csvd : List String) (idx : Int)
    (acc : List MeterReading) (m : Int)
    (h0 : ¬ idx < 0) (hm : findMarker csvd idx = .ok m) :
    (m < 0 → readCombinedAux csvd idx acc = .ok (acc, true))
    ∧ (∀ t2 : String, ¬ m < 0 → pyGet csvd (m - 2) = .ok t2 → t2 ≠ "10" →
        readCombinedAux csvd idx acc = .ok (acc, true))
    ∧ (¬ m < 0 → pyGet csvd (m - 2) = .ok "10" → pyGet csvd m = .ok "11" →
        readCombinedAux csvd idx acc = .ok (acc, false)) := by
  refine ⟨?_, ?_, ?_⟩
  · intro hneg
    rw [readCombinedAux, if_neg h0, hm]
    simp only []
    rw [dif_pos hneg]
  · intro t2 hneg h2 hne
    rw [readCombinedAux, if_neg h0, hm]
    simp only []
    rw [dif_neg hneg, h2]
    simp only []
    rw [if_pos hne]
  · intro hneg h2 h11
    rw [readCombinedAux, if_neg h0, hm]
    simp only []
    rw [dif_neg hneg, h2]
    simp only []
    rw [if_neg (fun hne => hne rfl : ¬ ("10" : String) ≠ "10"), h11]
    simp only [if_true]

/-- C5 counterexample: on `["0", "0", "11"]` the scan finds the terminal
marker `'11'` (at position 2), yet `_read_combined` emits the "unexpected
exit" diagnostic (flag `true`) because the token two positions before it is
not `'10'` — the claim says finding `'11'` stops normally with no
diagnostic. -/
theorem claim_C5_counterexample :
    findMarker ["0", "0", "11"] 2 = .ok 2
    ∧ pyGet ["0", "0", "11"] 2 = .ok "11"
    ∧ read_combined ["0", "0", "11"] = .ok ([], true) := by
  refine ⟨?_, by rfl, ?_⟩
  · rw [findMarker_eval]
    rfl
  · rw [read_combined_eval]
    rfl

/-- C5 witness: finding `'11'` with `'10'` two positions before it stops
without the diagnostic. -/
theorem claim_C5_witness :
    readCombinedAux ["10", "0", "11"] 2 [] = .ok ([], false) := by
  exact (claim_C5_amended ["10", "0", "11"] 2 [] 2 (by decide)
    (by rw [findMarker_eval]; rfl)).2.2 (by decide) (by rfl) (by rfl)

theorem pairAux_ok :
    ∀ (lists : List (List MeterReading)) (names : List String)
      (acc : List (String × List MeterReading)),
      lists.length ≤ names.length →
      ∃ pairs rem, pairAux names lists acc = .ok (pairs, rem)
        ∧ pairs.length = acc.length + lists.length
        ∧ rem.length = names.length - lists.length := by
  intro lists
  induction lists with
  | nil =>
    intro names acc h
    exact ⟨acc, names, rfl, by simp, by simp⟩
  | cons l rest ih =>
    intro names acc h
    simp only [pairAux, pyPop]
    cases hlast : names.getLast? with
    | none =>
      rw [List.getLast?_eq_none_iff] at hlast
      subst hlast
      simp at h
    | some x =>
      simp only []
      obtain ⟨pairs, rem, heq, hp, hr⟩ :=
        ih names.dropLast (acc ++ [(x, l)])
          (by
            rw [List.length_dropLast]
            simp only [List.length_cons] at h
            omega)
      refine ⟨pairs, rem, heq, ?_, ?_⟩
      · simp only [List.length_append, List.length_cons, List.length_nil] at hp ⊢
        omega
      · rw [List.length_dropLast] at hr
        simp only [List.length_cons] at hr ⊢
        omega

theorem pairAux_err :
    ∀ (lists : List (List MeterReading)) (names : List String)
      (acc : List (String × List MeterReading)),
      names.length < lists.length →
      pairAux names lists acc = .error .indexError := by
  intro lists
  induction lists with
  | nil => intro names acc h; simp at h
  | cons l rest ih =>
    intro names acc h
    simp only [pairAux, pyPop]
    cases hlast : names.getLast? with
    | none => simp only []
    | some x =>
      simp only []
      refine ih names.dropLast (acc ++ [(x, l)]) ?_
      have hne : names ≠ [] := by
        intro he
        rw [he] at hlast
        cases hlast
      simp only [List.length_dropLast, List.length_cons] at h ⊢
      have : 1 ≤ names.length := by
        cases names with
        | nil => exact absurd rfl hne
        | cons a t => simp
      omega

/-- C8 (amended): in `readings_from_reading_service`, when the decoded
per-meter lists number at most the decoded meter names, the pairing
completes: each yielded list is keyed by a name popped from the end, the
leftover names are surfaced, and the mismatch warning fires exactly when
names exceed lists; but when the lists outnumber the names, `pop` on the
exhausted name list raises IndexError and the decode run fails. -/
theorem claim_C8_amended (names : List String)
    (lists : List (List MeterReading)) :
    (lists.length ≤ names.length →
      ∃ pairs rem, pairReadingLists names lists = .ok (pairs, rem)
        ∧ pairs.length = lists.length
        ∧ rem.length = names.length - lists.length
        ∧ (rem ≠ [] ↔ lists.length < names.length))
    ∧ (names.length < lists.length →
      pairReadingLists names lists = .error .indexError) := by
  constructor
  · intro h
    obtain ⟨pairs, rem, heq, hp, hr⟩ := pairAux_ok lists names [] h
    refine ⟨pairs, rem, heq, by simpa using hp, hr, ?_⟩
    constructor
    · intro hne
      have : rem.length ≠ 0 := by
        intro h0
        exact hne (List.length_eq_zero.mp h0)
      omega
    · intro hlt
      intro he
      rw [he] at hr
      simp at hr
      omega
  · intro h
    exact pairAux_err lists names [] h

/-- C8 counterexample: one decoded reading list but no meter names — the
counts differ, and the pairing raises IndexError instead of completing with
a warning. -/
theorem claim_C8_counterexample :
    ([] : List String).length ≠ [([] : List MeterReading)].length
    ∧ pairReadingLists [] [[]] = .error .indexError := by
  exact ⟨by decide, by rfl⟩

/-- C8 witness: three names and two lists pair up with one surfaced leftover
name (warning fires); one name and two lists fail with IndexError. -/
theorem claim_C8_witness :
    (∃ pairs rem, pairReadingLists ["a", "b", "c"] [[], []] = .ok (pairs, rem)
      ∧ pairs.length = 2 ∧ rem.length = 1 ∧ (rem ≠ [] ↔ (2 : Nat) < 3))
    ∧ pairReadingLists ["a"] [[], []] = .error .indexError := by
  constructor
  · have h := (claim_C8_amended ["a", "b", "c"] [[], []]).1 (by decide)
    simpa using h
  · exact (claim_C8_amended ["a"] [[], []]).2 (by decide)

theorem segsLoop_ne_invalid (meta : List String) :
    ∀ (pairs : List (Nat × Nat)) (ret : List String),
      segsLoop meta pairs ret ≠ .error .invalidMetadata := by
  intro pairs
  induction pairs with
  | nil => intro ret h; cases h
  | cons pr rest ih =>
    intro ret h
    obtain ⟨s, e⟩ := pr
    simp only [segsLoop] at h
    cases hg : pyGet meta ((s : Int) + 1) with
    | error err =>
      rw [hg] at h
      simp only [] at h
      injection h with h2
      exact absurd (pyGet_error_eq hg) (by rw [h2]; intro hc; cases hc)
    | ok tok =>
      rw [hg] at h
      simp only [] at h
      split at h
      · exact ih _ h
      · exact ih _ h

theorem segsLoop_ok (meta : List String) :
    ∀ (pairs : List (Nat × Nat)) (ret : List String),
      (∀ pr ∈ pairs, pr.1 + 1 < meta.length) →
      ∃ l, segsLoop meta pairs ret = .ok l := by
  intro pairs
  induction pairs with
  | nil => intro ret _; exact ⟨ret, rfl⟩
  | cons pr rest ih =>
    intro ret hb
    obtain ⟨s, e⟩ := pr
    have hs : s + 1 < meta.length := hb (s, e) (List.mem_cons_self _ _)
    obtain ⟨tok, hg⟩ : ∃ tok, pyGet meta ((s : Int) + 1) = .ok tok :=
      ⟨_, pyGet_ok meta ((s : Int) + 1) (by omega) (by push_cast; omega)⟩
    simp only [segsLoop, hg]
    by_cases hc : (segLoop (pySlice meta (s + 2) e) (pyStrip1 tok) [] ret).2.1 ≠ []
    · rw [if_pos hc]
      exact ih _ (fun pr hpr => hb pr (List.mem_cons_of_mem _ hpr))
    · rw [if_neg hc]
      exact ih _ (fun pr hpr => hb pr (List.mem_cons_of_mem _ hpr))

theorem mem_zip_tail_consec :
    ∀ (l : List Nat) (pr : Nat × Nat), pr ∈ l.zip l.tail →
      ∃ (k : Nat) (h1 : k < l.length) (h2 : k + 1 < l.length),
        l.get ⟨k, h1⟩ = pr.1 ∧ l.get ⟨k + 1, h2⟩ = pr.2 := by
  intro l
  induction l with
  | nil => intro pr h; cases h
  | cons a t ih =>
    intro pr h
    cases t with
    | nil => cases h
    | cons b t2 =>
      simp only [List.tail_cons, List.zip_cons_cons] at h
      rcases List.mem_cons.mp h with h0 | h1
      · subst h0
        exact ⟨0, by simp, by simp, rfl, rfl⟩
      · have h2 : pr ∈ (b :: t2).zip (b :: t2).tail := by
          simpa using h1
        obtain ⟨k, hk1, hk2, he1, he2⟩ := ih pr h2
        refine ⟨k + 1, by simpa using Nat.succ_lt_succ hk1,
          by simpa using Nat.succ_lt_succ hk2, ?_, ?_⟩
        · simpa [List.get_cons_succ] using he1
        · simpa [List.get_cons_succ] using he2

/-- C9 (amended): `_extract_meters` fails with InvalidMetadata precisely when
no metadata token contains the start marker `'+'` or no `'"column"'` terminal
marker token is present; when both markers are present it never raises
InvalidMetadata, and it returns the ordered meter-name list provided every
`'+'`-marked token is followed by at least one token (a start marker in the
final metadata position makes `meta_csv[start+1]` raise IndexError
instead). -/
theorem claim_C9_amended (meta : List String) :
    (extract_meters meta = .error .invalidMetadata
      ↔ (markerIndices meta 0 = [] ∨ pyIndex meta "\"column\"" = none))
    ∧ ((markerIndices meta 0 ≠ [] ∧ pyIndex meta "\"column\"" ≠ none ∧
        (∀ i ∈ markerIndices meta 0, i + 1 < meta.length)) →
      ∃ l, extract_meters meta = .ok l) := by
  constructor
  · constructor
    · intro h
      by_cases hne : markerIndices meta 0 = []
      · exact Or.inl hne
      · by_cases hci : pyIndex meta "\"column\"" = none
        · exact Or.inr hci
        · exfalso
          cases hsome : pyIndex meta "\"column\"" with
          | none => exact hci hsome
          | some ci =>
            rw [extract_meters] at h
            simp only [] at h
            rw [if_neg hne, hsome] at h
            simp only [] at h
            exact segsLoop_ne_invalid meta _ _ h
    · intro hd
      rcases hd with hne | hci
      · rw [extract_meters]
        simp only []
        rw [if_pos hne]
      · by_cases hne : markerIndices meta 0 = []
        · rw [extract_meters]
          simp only []
          rw [if_pos hne]
        · rw [extract_meters]
          simp only []
          rw [if_neg hne, hci]
  · rintro ⟨hne, hci, hb⟩
    cases hsome : pyIndex meta "\"column\"" with
    | none => exact absurd hsome hci
    | some ci =>
      rw [extract_meters]
      simp only []
      rw [if_neg hne, hsome]
      simp only []
      apply segsLoop_ok
      intro pr hpr
      obtain ⟨k, hk1, hk2, he1, he2⟩ := mem_zip_tail_consec _ pr hpr
      have hklt : k < (markerIndices meta 0).length := by
        simp only [List.length_append, List.length_cons, List.length_nil] at hk2
        omega
      have hmem : pr.1 ∈ markerIndices meta 0 := by
        rw [← he1]
        rw [List.get_eq_getElem, List.getElem_append_left hklt]
        exact List.getElem_mem _
      exact hb pr.1 hmem

/-- C9 counterexample: metadata `["\x22column\x22", "x+"]` contains both a
`'+'`-marked token and the terminal marker, yet `_extract_meters` raises
IndexError (the start marker is the last token), so it neither raises
InvalidMetadata nor returns a meter-name list. -/
theorem claim_C9_counterexample :
    pyInStr "+" "x+" = true
    ∧ pyIndex ["\"column\"", "x+"] "\"column\"" = some 0
    ∧ extract_meters ["\"column\"", "x+"] = .error .indexError := by
  exact ⟨by rfl, by rfl, by rfl⟩

/-- C9 witness: metadata with both markers (and the start marker not last)
yields a meter list; metadata with no start marker fails with
InvalidMetadata. -/
theorem claim_C9_witness :
    (∃ l, extract_meters ["x+1", "\"m1\"", "\"column\""] = .ok l)
    ∧ extract_meters ["\"m1\"", "\"column\""] = .error .invalidMetadata := by
  constructor
  · exact (claim_C9_amended ["x+1", "\"m1\"", "\"column\""]).2
      ⟨by decide, by decide, by decide⟩
  · exact (claim_C9_amended ["\"m1\"", "\"column\""]).1.mpr (Or.inl (by decide))

/-! ### Codec round-trip lemmas -/

theorem encodeB64Char_val (v : Nat) (h : v < 64) :
    b64CharVal (encodeB64Char v) = some v := by
  interval_cases v <;> rfl

theorem encodeB64Char_ne_pad (v : Nat) (h : v < 64) : encodeB64Char v ≠ '=' := by
  interval_cases v <;> decide

theorem a2b_cons0 (c : Char) (v : Nat) (hc : b64CharVal c = some v)
    (hne : c ≠ '=') (rest : List Char) (lc pads : Nat) (out : List Nat) :
    a2b_base64 (c :: rest) 0 lc pads out = a2b_base64 rest 1 v 0 out := by
  simp only [a2b_base64, if_neg hne, hc]

theorem a2b_cons1 (c : Char) (v : Nat) (hc : b64CharVal c = some v)
    (hne : c ≠ '=') (rest : List Char) (lc pads : Nat) (out : List Nat) :
    a2b_base64 (c :: rest) 1 lc pads out
      = a2b_base64 rest 2 (v % 16) 0 (out ++ [lc * 4 + v / 16]) := by
  simp only [a2b_base64, if_neg hne, hc]

theorem a2b_cons2 (c : Char) (v : Nat) (hc : b64CharVal c = some v)
    (hne : c ≠ '=') (rest : List Char) (lc pads : Nat) (out : List Nat) :
    a2b_base64 (c :: rest) 2 lc pads out
      = a2b_base64 rest 3 (v % 4) 0 (out ++ [lc * 16 + v / 4]) := by
  simp only [a2b_base64, if_neg hne, hc]

theorem a2b_cons3 (c : Char) (v : Nat) (hc : b64CharVal c = some v)
    (hne : c ≠ '=') (rest : List Char) (lc pads : Nat) (out : List Nat) :
    a2b_base64 (c :: rest) 3 lc pads out
      = a2b_base64 rest 0 0 0 (out ++ [lc * 64 + v]) := by
  simp only [a2b_base64, if_neg hne, hc]

theorem a2b_pad3 (rest : List Char) (lc pads : Nat) (out : List Nat) :
    a2b_base64 ('=' :: rest) 3 lc pads out = .ok out := by
  simp [a2b_base64]
  intro hcon
  omega

theorem a2b_pad2 (rest : List Char) (lc : Nat) (out : List Nat) :
    a2b_base64 ('=' :: '=' :: rest) 2 lc 0 out = .ok out := by
  simp [a2b_base64]

/-- Decoding the base64 encoding of a byte list (with two trailing pad
characters appended, as `timestamp_from_encoded` does) recovers exactly the
bytes. -/
theorem a2b_enc :
    ∀ (bs : List Nat), (∀ b ∈ bs, b < 256) →
      ∀ (acc : List Nat),
        a2b_base64 (b64encodeChars bs ++ ['=', '=']) 0 0 0 acc = .ok (acc ++ bs) := by
  intro bs
  induction bs using b64encodeChars.induct with
  | case1 b1 b2 b3 rest ih =>
    intro h acc
    have hb1 : b1 < 256 := h b1 (by simp)
    have hb2 : b2 < 256 := h b2 (by simp)
    have hb3 : b3 < 256 := h b3 (by simp)
    simp only [b64encodeChars, List.cons_append]
    rw [a2b_cons0 _ _ (encodeB64Char_val _ (by omega)) (encodeB64Char_ne_pad _ (by omega)),
      a2b_cons1 _ _ (encodeB64Char_val _ (by omega)) (encodeB64Char_ne_pad _ (by omega)),
      a2b_cons2 _ _ (encodeB64Char_val _ (by omega)) (encodeB64Char_ne_pad _ (by omega)),
      a2b_cons3 _ _ (encodeB64Char_val _ (by omega)) (encodeB64Char_ne_pad _ (by omega))]
    rw [ih (fun b hb => h b (by simp [hb])) _]
    congr 1
    have e1 : b1 / 4 * 4 + ((b1 % 4) * 16 + b2 / 16) / 16 = b1 := by omega
    have e2 : ((b1 % 4) * 16 + b2 / 16) % 16 * 16 + ((b2 % 16) * 4 + b3 / 64) / 4 = b2 := by
      omega
    have e3 : ((b2 % 16) * 4 + b3 / 64) % 4 * 64 + b3 % 64 = b3 := by omega
    rw [e1, e2, e3]
    simp
  | case2 b1 b2 =>
    intro h acc
    have hb1 : b1 < 256 := h b1 (by simp)
    have hb2 : b2 < 256 := h b2 (by simp)
    simp only [b64encodeChars, List.cons_append, List.nil_append]
    rw [a2b_cons0 _ _ (encodeB64Char_val _ (by omega)) (encodeB64Char_ne_pad _ (by omega)),
      a2b_cons1 _ _ (encodeB64Char_val _ (by omega)) (encodeB64Char_ne_pad _ (by omega)),
      a2b_cons2 _ _ (encodeB64Char_val _ (by omega)) (encodeB64Char_ne_pad _ (by omega)),
      a2b_pad3]
    have e1 : b1 / 4 * 4 + ((b1 % 4) * 16 + b2 / 16) / 16 = b1 := by omega
    have e2 : ((b1 % 4) * 16 + b2 / 16) % 16 * 16 + ((b2 % 16) * 4) / 4 = b2 := by omega
    rw [e1, e2]
    simp
  | case3 b1 =>
    intro h acc
    have hb1 : b1 < 256 := h b1 (by simp)
    simp only [b64encodeChars, List.cons_append, List.nil_append]
    rw [a2b_cons0 _ _ (encodeB64Char_val _ (by omega)) (encodeB64Char_ne_pad _ (by omega)),
      a2b_cons1 _ _ (encodeB64Char_val _ (by omega)) (encodeB64Char_ne_pad _ (by omega)),
      a2b_pad2]
    have e1 : b1 / 4 * 4 + ((b1 % 4) * 16) / 16 = b1 := by omega
    rw [e1]
  | case4 =>
    intro h acc
    simp only [b64encodeChars, List.nil_append]
    simp [a2b_base64]

theorem toBytes8_lt (n : Nat) : ∀ b ∈ toBytes8 n, b < 256 := by
  intro b hb
  simp only [toBytes8, List.mem_cons, List.not_mem_nil, or_false] at hb
  rcases hb with h | h | h | h | h | h | h | h <;> subst h <;> omega

theorem bytesToNat_toBytes8 (n : Nat) (h : n < 2 ^ 64) :
    bytesToNat (toBytes8 n) = n := by
  simp only [bytesToNat, toBytes8, List.foldl]
  omega

/-- C6: for every valid timestamp token `s` (one on which
`timestamp_from_encoded` succeeds — the embedding is a function, hence
deterministic), re-encoding the decoded point in time with
`encoded_from_timestamp` succeeds and decodes back to the same point in
time: the round trip is value-preserving even though the re-encoded token
text may differ from `s`. -/
theorem claim_C6 (s : String) (t : Int)
    (h : timestamp_from_encoded s = .ok t) :
    ∃ e, encoded_from_timestamp t = .ok e ∧ timestamp_from_encoded e = .ok t := by
  rw [timestamp_from_encoded] at h
  rcases ha : a2b_base64 (s ++ "==").toList 0 0 0 [] with er | bytes <;>
    rw [ha] at h
  · cases h
  · simp only [] at h
    rw [pyFromtimestamp] at h
    split at h
    · rename_i hb
      injection h with h2
      have hminv : pyMinTimestamp = -62135596800 := rfl
      have hmaxv : pyMaxTimestamp = 253402300799 := rfl
      have h64 : (2 : Int) ^ 64 = 18446744073709551616 := by norm_num
      have ht0 : 0 ≤ t := by omega
      have htmax : t ≤ pyMaxTimestamp := by omega
      have hbound : 0 ≤ t * 250 ∧ t * 250 < (2 : Int) ^ 64 := by
        constructor
        · omega
        · omega
      rw [encoded_from_timestamp]
      rw [if_pos hbound]
      refine ⟨_, rfl, ?_⟩
      rw [timestamp_from_encoded]
      have hchars :
          (String.mk (b64encodeChars (toBytes8 (t * 250).toNat)) ++ "==").toList
            = b64encodeChars (toBytes8 (t * 250).toNat) ++ ['=', '='] := by
        show (String.mk (b64encodeChars (toBytes8 (t * 250).toNat)) ++ "==").data
          = b64encodeChars (toBytes8 (t * 250).toNat) ++ ['=', '=']
        rw [String.data_append]
      rw [hchars, a2b_enc _ (toBytes8_lt _) []]
      simp only [List.nil_append]
      rw [bytesToNat_toBytes8 _ (by omega)]
      have hdiv : ((t * 250).toNat / 250 : Nat) = t.toNat := by omega
      rw [hdiv]
      have hcast : ((t.toNat : Nat) : Int) = t := by omega
      rw [pyFromtimestamp, hcast, if_pos ⟨by omega, by omega⟩]
    · cases h

/-- C6 witness: the token `"AA"` decodes (to the epoch), and re-encoding its
value yields a token that decodes to the same point in time. -/
theorem claim_C6_witness :
    ∃ e, encoded_from_timestamp 0 = .ok e ∧ timestamp_from_encoded e = .ok 0 :=
  claim_C6 "AA" 0 (by rfl)

theorem a2b_skip_invalid :
    ∀ (cs : List Char), (∀ c ∈ cs, b64CharVal c = none ∧ c ≠ '=') →
      ∀ (tl : List Char) (q lc p : Nat) (out : List Nat),
        a2b_base64 (cs ++ tl) q lc p out = a2b_base64 tl q lc p out := by
  intro cs
  induction cs with
  | nil => intro h tl q lc p out; rfl
  | cons c rest ih =>
    intro h tl q lc p out
    obtain ⟨hv, hne⟩ := h c (List.mem_cons_self _ _)
    simp only [List.cons_append, a2b_base64, if_neg hne, hv]
    exact ih (fun c2 hc => h c2 (List.mem_cons_of_mem _ hc)) tl q lc p out

theorem a2b_skipchar (c : Char) (hv : b64CharVal c = none) (hne : c ≠ '=')
    (rest : List Char) (q lc p : Nat) (out : List Nat) :
    a2b_base64 (c :: rest) q lc p out = a2b_base64 rest q lc p out := by
  simp only [a2b_base64, if_neg hne, hv]

/-- The two pad characters `timestamp_from_encoded` appends close any quad
with at least two characters; a quad holding exactly one character is left
open and makes the decode fail. -/
theorem a2b_padpad (q lc p : Nat) (out : List Nat) (hq : q < 4) :
    a2b_base64 ['=', '='] q lc p out
      = if q = 1 then .error .binasciiError else .ok out := by
  interval_cases q
  · rfl
  · rfl
  · by_cases hp : 4 ≤ 2 + (p + 1)
    · simp [a2b_base64, hp]
    · have hp0 : p = 0 := by omega
      subst hp0
      rfl
  · have h34 : 4 ≤ 3 + (p + 1) := by omega
    simp [a2b_base64, h34]

/-- Scanning a pad-free character list advances the quad position by the
number of retained alphabet characters, modulo four, for any continuation. -/
theorem a2b_scan_noeq :
    ∀ (cs tl : List Char), (∀ c ∈ cs, c ≠ '=') →
      ∀ (q lc p : Nat) (out : List Nat), q < 4 →
        ∃ (lc2 p2 : Nat) (out2 : List Nat),
          a2b_base64 (cs ++ tl) q lc p out
            = a2b_base64 tl ((q + cs.countP fun c => (b64CharVal c).isSome) % 4)
                lc2 p2 out2 := by
  intro cs
  induction cs with
  | nil =>
    intro tl h q lc p out hq
    refine ⟨lc, p, out, ?_⟩
    simp [Nat.mod_eq_of_lt hq]
  | cons c rest ih =>
    intro tl h q lc p out hq
    have hne : c ≠ '=' := h c (List.mem_cons_self _ _)
    have hrest : ∀ c2 ∈ rest, c2 ≠ '=' :=
      fun c2 hc => h c2 (List.mem_cons_of_mem _ hc)
    rcases hv : b64CharVal c with _ | v
    · obtain ⟨lc2, p2, out2, heq⟩ := ih tl hrest q lc p out hq
      refine ⟨lc2, p2, out2, ?_⟩
      rw [List.cons_append, a2b_skipchar c hv hne, heq]
      have hcnt : ((c :: rest).countP fun c => (b64CharVal c).isSome)
          = rest.countP fun c => (b64CharVal c).isSome := by
        simp [List.countP_cons, hv]
      rw [hcnt]
    · have hcnt : ((c :: rest).countP fun c => (b64CharVal c).isSome)
          = (rest.countP fun c => (b64CharVal c).isSome) + 1 := by
        simp [List.countP_cons, hv]
      interval_cases q
      · obtain ⟨lc2, p2, out2, heq⟩ := ih tl hrest 1 v 0 out (by omega)
        refine ⟨lc2, p2, out2, ?_⟩
        rw [List.cons_append, a2b_cons0 c v hv hne, heq, hcnt]
        have hmod : (0 + ((rest.countP fun c => (b64CharVal c).isSome) + 1)) % 4
            = (1 + rest.countP fun c => (b64CharVal c).isSome) % 4 := by omega
        rw [hmod]
      · obtain ⟨lc2, p2, out2, heq⟩ :=
          ih tl hrest 2 (v % 16) 0 (out ++ [lc * 4 + v / 16]) (by omega)
        refine ⟨lc2, p2, out2, ?_⟩
        rw [List.cons_append, a2b_cons1 c v hv hne, heq, hcnt]
        have hmod : (1 + ((rest.countP fun c => (b64CharVal c).isSome) + 1)) % 4
            = (2 + rest.countP fun c => (b64CharVal c).isSome) % 4 := by omega
        rw [hmod]
      · obtain ⟨lc2, p2, out2, heq⟩ :=
          ih tl hrest 3 (v % 4) 0 (out ++ [lc * 16 + v / 4]) (by omega)
        refine ⟨lc2, p2, out2, ?_⟩
        rw [List.cons_append, a2b_cons2 c v hv hne, heq, hcnt]
        have hmod : (2 + ((rest.countP fun c => (b64CharVal c).isSome) + 1)) % 4
            = (3 + rest.countP fun c => (b64CharVal c).isSome) % 4 := by omega
        rw [hmod]
      · obtain ⟨lc2, p2, out2, heq⟩ :=
          ih tl hrest 0 0 0 (out ++ [lc * 64 + v]) (by omega)
        refine ⟨lc2, p2, out2, ?_⟩
        rw [List.cons_append, a2b_cons3 c v hv hne, heq, hcnt]
        have hmod : (3 + ((rest.countP fun c => (b64CharVal c).isSome) + 1)) % 4
            = (0 + rest.countP fun c => (b64CharVal c).isSome) % 4 := by omega
        rw [hmod]

/-- C7 counterexample: the token `"!"` is not valid modified-base64 (its one
character is outside the substituted alphabet), yet `timestamp_from_encoded`
does not fail: the lenient decoder discards the character and returns the
epoch. -/
theorem claim_C7_counterexample :
    b64CharVal '!' = none ∧ timestamp_from_encoded "!" = .ok 0 :=
  ⟨rfl, rfl⟩

/-- C7 (amended): characters outside the (substituted) base64 alphabet are
silently discarded rather than rejected — a token consisting solely of such
characters decodes to the epoch; `timestamp_from_encoded` fails with the
codec error exactly when the retained characters leave an invalid quad
structure (a `binascii.Error`) or when the decoded tick count, floor-divided
by 250, overflows the representable datetime range (an OverflowError).  For
a pad-free token the invalid quad structure is characterised exactly: with
the two pads the decoder appends, the decode fails with `binascii.Error` if
and only if the number of retained alphabet characters is congruent to one
modulo four. -/
theorem claim_C7_amended :
    (∀ s : String, (∀ c ∈ s.toList, b64CharVal c = none ∧ c ≠ '=') →
      timestamp_from_encoded s = .ok 0)
    ∧ (∀ s : String, (∀ c ∈ s.toList, c ≠ '=') →
      (timestamp_from_encoded s = .error .binasciiError
        ↔ (s.toList.countP fun c => (b64CharVal c).isSome) % 4 = 1))
    ∧ (∀ (s : String) (bs : List Nat),
      a2b_base64 (s ++ "==").toList 0 0 0 [] = .ok bs →
      pyMaxTimestamp < ((bytesToNat bs / 250 : Nat) : Int) →
      timestamp_from_encoded s = .error .overflowError) := by
  refine ⟨?_, ?_, ?_⟩
  · intro s hs
    rw [timestamp_from_encoded]
    have hsplit : (s ++ "==").toList = s.toList ++ ['=', '='] := rfl
    rw [hsplit, a2b_skip_invalid s.toList hs ['=', '='] 0 0 0 []]
    rfl
  · intro s hs
    rw [timestamp_from_encoded]
    have hsplit : (s ++ "==").toList = s.toList ++ ['=', '='] := rfl
    rw [hsplit]
    obtain ⟨lc2, p2, out2, heq⟩ :=
      a2b_scan_noeq s.toList ['=', '='] hs 0 0 0 [] (by omega)
    rw [heq, a2b_padpad _ _ _ _ (Nat.mod_lt _ (by omega))]
    by_cases hq : (0 + s.toList.countP fun c => (b64CharVal c).isSome) % 4 = 1
    · rw [if_pos hq]
      simp only []
      constructor
      · intro _
        omega
      · intro _
        trivial
    · rw [if_neg hq]
      simp only []
      constructor
      · intro hcon
        rw [pyFromtimestamp] at hcon
        by_cases hc : pyMinTimestamp ≤ ((bytesToNat out2 / 250 : Nat) : Int)
            ∧ ((bytesToNat out2 / 250 : Nat) : Int) ≤ pyMaxTimestamp
        · rw [if_pos hc] at hcon
          cases hcon
        · rw [if_neg hc] at hcon
          injection hcon with h2
          cases h2
      · intro hn
        exact absurd (by omega : (0 + s.toList.countP
          fun c => (b64CharVal c).isSome) % 4 = 1) hq
  · intro s bs ha hover
    rw [timestamp_from_encoded, ha]
    simp only []
    rw [pyFromtimestamp, if_neg (by intro hc; omega)]

/-- C7 witness: a token of wrong-alphabet characters decodes to the epoch
instead of failing, a pad-free token retaining exactly one alphabet
character fails with the codec error, and a token whose tick count overflows
the datetime range fails with OverflowError. -/
theorem claim_C7_witness :
    timestamp_from_encoded "?" = .ok 0
    ∧ timestamp_from_encoded "A" = .error .binasciiError
    ∧ timestamp_from_encoded "________" = .error .overflowError := by
  refine ⟨?_, ?_, ?_⟩
  · exact claim_C7_amended.1 "?" (by decide)
  · exact (claim_C7_amended.2.1 "A" (by decide)).mpr (by decide)
  · exact claim_C7_amended.2.2 "________" [255, 255, 255, 255, 255, 255]
      (by rfl) (by decide)

/-! ### The combined-list decoding claim (C2) -/

theorem exceptIsOk_eq {ε α : Type} (x : Except ε α) (d : α)
    (h : exceptIsOk x = true) : x = .ok (exceptGetD x d) := by
  cases x with
  | ok a => rfl
  | error e => simp [exceptIsOk] at h

theorem entryTokens_length (e : CEntry) :
    (entryTokens e).length = e.fill.length + 5 := by
  simp [entryTokens]

theorem findMarker_hit (csvd : List String) (i : Int) (t : String)
    (h0 : 0 ≤ i) (hg : pyGet csvd i = .ok t) (ht : t = "9" ∨ t = "11") :
    findMarker csvd i = .ok i := by
  rw [findMarker, if_neg (by omega), hg]
  simp only []
  rw [if_pos ht]

theorem findMarker_skip_run :
    ∀ (run : List String), (∀ t ∈ run, noMark t) →
      ∀ (pre post : List String),
        findMarker (pre ++ run ++ post) ((pre.length : Int) + run.length - 1)
          = findMarker (pre ++ run ++ post) ((pre.length : Int) - 1) := by
  intro run
  induction run using List.reverseRecOn with
  | nil =>
    intro h pre post
    simp
  | append_singleton rs r ih =>
    intro h pre post
    have hnm : noMark r := h r (by simp)
    have heq : pre ++ (rs ++ [r]) ++ post = (pre ++ rs) ++ [r] ++ post := by
      simp [List.append_assoc]
    have hidx : (pre.length : Int) + ((rs ++ [r]).length : Int) - 1
        = ((pre ++ rs).length : Int) := by
      push_cast [List.length_append, List.length_cons, List.length_nil]
      ring
    rw [heq, hidx]
    have hg : pyGet ((pre ++ rs) ++ [r] ++ post) (((pre ++ rs).length : Int))
        = .ok r := by
      have h0 := pyGet_at (pre ++ rs) [r] post 0 (by simp)
      simpa using h0
    rw [findMarker, if_neg (by omega), hg]
    simp only []
    rw [if_neg (fun hc => hc.elim hnm.1 hnm.2)]
    have heq2 : (pre ++ rs) ++ [r] ++ post = pre ++ rs ++ ([r] ++ post) := by
      simp [List.append_assoc]
    have hidx2 : ((pre ++ rs).length : Int) - 1
        = (pre.length : Int) + (rs.length : Int) - 1 := by
      push_cast [List.length_append]
      ring
    rw [heq2, hidx2]
    exact ih (fun t2 ht2 => h t2 (List.mem_append_left _ ht2)) pre ([r] ++ post)

theorem readCombined_scan (pfx : List String) (ES : List CEntry)
    (hok : ∀ e ∈ ES, entryOk e)
    (hlen : 2 ≤ pfx.length + 1 + (ES.flatMap entryTokens).length) :
    ∃ t2 : String,
      pyGet ((pfx ++ ["11"]) ++ ES.flatMap entryTokens) ((pfx.length : Int) - 2)
        = .ok t2 ∧
      ∀ (pending done : List CEntry), ES = pending ++ done →
        ∀ acc : List MeterReading,
          readCombinedAux ((pfx ++ ["11"]) ++ ES.flatMap entryTokens)
            ((pfx.length : Int) + 1 + ((pending.flatMap entryTokens).length : Int)
              + (if done.isEmpty then -1 else 2)) acc
          = .ok (acc ++ (pending.map entryReading).reverse,
              if t2 = "10" then false else true) := by
  have hclen : (((pfx ++ ["11"]) ++ ES.flatMap entryTokens).length : Int)
      = (pfx.length : Int) + 1 + ((ES.flatMap entryTokens).length : Int) := by
    push_cast [List.length_append, List.length_cons, List.length_nil]
    ring
  obtain ⟨t2, ht2⟩ : ∃ t2,
      pyGet ((pfx ++ ["11"]) ++ ES.flatMap entryTokens) ((pfx.length : Int) - 2)
        = .ok t2 := by
    by_cases hp2 : 2 ≤ pfx.length
    · exact ⟨_, pyGet_ok _ _ (by omega) (by omega)⟩
    · exact ⟨_, pyGet_neg _ _ (by omega) (by omega)⟩
  refine ⟨t2, ht2, ?_⟩
  have h11 : pyGet ((pfx ++ ["11"]) ++ ES.flatMap entryTokens)
      ((pfx.length : Int)) = .ok "11" := by
    have h0 := pyGet_at pfx ["11"] (ES.flatMap entryTokens) 0 (by simp)
    simpa using h0
  have hstep : ∀ (idx : Int), 0 ≤ idx →
      findMarker ((pfx ++ ["11"]) ++ ES.flatMap entryTokens) idx
        = .ok ((pfx.length : Int)) →
      ∀ acc, readCombinedAux ((pfx ++ ["11"]) ++ ES.flatMap entryTokens) idx acc
        = .ok (acc, if t2 = "10" then false else true) := by
    intro idx h0 hm acc
    rw [readCombinedAux, if_neg (by omega), hm]
    simp only []
    rw [dif_neg (by omega)]
    rw [ht2]
    simp only []
    by_cases hq : t2 = "10"
    · subst hq
      rw [if_neg (fun hne => hne rfl : ¬ ("10" : String) ≠ "10"), h11]
      simp
    · rw [if_pos hq, if_neg hq]
  intro pending
  induction pending using List.reverseRecOn with
  | nil =>
    intro done hsplit acc
    cases done with
    | nil =>
      have hidx : (pfx.length : Int) + 1
          + ((([] : List CEntry).flatMap entryTokens).length : Int)
          + (if ([] : List CEntry).isEmpty then (-1 : Int) else 2)
          = (pfx.length : Int) := by
        simp
      rw [hidx]
      have h := hstep ((pfx.length : Int)) (by omega)
        (findMarker_hit _ _ "11" (by omega) h11 (Or.inr rfl)) acc
      simpa using h
    | cons d rest =>
      have hokd : entryOk d := hok d (by rw [hsplit]; simp)
      have hdecomp : (pfx ++ ["11"]) ++ ES.flatMap entryTokens
          = (pfx ++ ["11"]) ++ [d.val, "10", d.ts]
            ++ ("9" :: (d.fill ++ ["8"]) ++ rest.flatMap entryTokens) := by
        rw [hsplit]
        simp [entryTokens, List.flatMap_cons, List.append_assoc]
      have hidx : (pfx.length : Int) + 1
          + ((([] : List CEntry).flatMap entryTokens).length : Int)
          + (if (d :: rest).isEmpty then (-1 : Int) else 2)
          = ((pfx ++ ["11"]).length : Int) + (([d.val, "10", d.ts] : List String).length : Int) - 1 := by
        push_cast [List.flatMap_nil, List.isEmpty_cons, List.length_append,
          List.length_cons, List.length_nil]
        omega
      rw [hidx]
      have hskip := findMarker_skip_run [d.val, "10", d.ts]
        (by
          intro t ht
          simp only [List.mem_cons, List.not_mem_nil, or_false] at ht
          rcases ht with h1 | h1 | h1 <;> subst h1
          · exact hokd.1
          · exact ⟨by decide, by decide⟩
          · exact hokd.2.1)
        (pfx ++ ["11"]) ("9" :: (d.fill ++ ["8"]) ++ rest.flatMap entryTokens)
      rw [← hdecomp] at hskip
      have hpre : ((pfx ++ ["11"]).length : Int) - 1 = (pfx.length : Int) := by
        push_cast [List.length_append, List.length_cons, List.length_nil]
        ring
      have hfm : findMarker ((pfx ++ ["11"]) ++ ES.flatMap entryTokens)
          (((pfx ++ ["11"]).length : Int)
            + (([d.val, "10", d.ts] : List String).length : Int) - 1)
          = .ok ((pfx.length : Int)) := by
        rw [hskip, hpre]
        exact findMarker_hit _ _ "11" (by omega) h11 (Or.inr rfl)
      have h := hstep _ (by push_cast; omega) hfm acc
      simpa using h
  | append_singleton ps p ih =>
    intro done hsplit acc
    have hokp : entryOk p := hok p (by rw [hsplit]; simp)
    have hsplit2 : ES = ps ++ (p :: done) := by rw [hsplit]; simp
    obtain ⟨hnm1, hnm2, hnm3, hok4, hok5⟩ := hokp
    obtain ⟨tsv, htsv⟩ : ∃ t, timestamp_from_encoded p.ts = .ok t := by
      rcases hx : timestamp_from_encoded p.ts with e | t
      · rw [hx] at hok5
        simp [exceptIsOk] at hok5
      · exact ⟨t, rfl⟩
    obtain ⟨qv, hqv⟩ : ∃ q, pyFloat p.val = .ok q := by
      rcases hx : pyFloat p.val with e | q
      · rw [hx] at hok4
        simp [exceptIsOk] at hok4
      · exact ⟨q, rfl⟩
    have hread : entryReading p = ⟨tsv, qv⟩ := by
      simp [entryReading, htsv, hqv, exceptGetD]
    have hD : (pfx ++ ["11"]) ++ ES.flatMap entryTokens
        = ((pfx ++ ["11"]) ++ ps.flatMap entryTokens) ++ entryTokens p
          ++ done.flatMap entryTokens := by
      rw [hsplit]
      simp [List.flatMap_append, List.append_assoc]
    have hB2 : ((((pfx ++ ["11"]) ++ ps.flatMap entryTokens)).length : Int)
        = (pfx.length : Int) + 1 + ((ps.flatMap entryTokens).length : Int) := by
      push_cast [List.length_append, List.length_cons, List.length_nil]
      ring
    have tok_at : ∀ (i : Nat) (v : String), (entryTokens p).get? i = some v →
        pyGet ((pfx ++ ["11"]) ++ ES.flatMap entryTokens)
          ((pfx.length : Int) + 1 + ((ps.flatMap entryTokens).length : Int) + (i : Int))
          = .ok v := by
      intro i v hv
      obtain ⟨hi, hgv⟩ := List.get?_eq_some.mp hv
      have h := pyGet_at ((pfx ++ ["11"]) ++ ps.flatMap entryTokens) (entryTokens p)
        (done.flatMap entryTokens) i hi
      rw [hB2, hgv] at h
      rw [hD]
      exact h
    have hT9 : pyGet ((pfx ++ ["11"]) ++ ES.flatMap entryTokens)
        ((pfx.length : Int) + 1 + ((ps.flatMap entryTokens).length : Int) + 3)
        = .ok "9" := by
      have h := tok_at 3 "9" (by simp [entryTokens])
      push_cast at h
      exact h
    have hT10 : pyGet ((pfx ++ ["11"]) ++ ES.flatMap entryTokens)
        ((pfx.length : Int) + 1 + ((ps.flatMap entryTokens).length : Int) + 1)
        = .ok "10" := by
      have h := tok_at 1 "10" (by simp [entryTokens])
      push_cast at h
      exact h
    have hTts : pyGet ((pfx ++ ["11"]) ++ ES.flatMap entryTokens)
        ((pfx.length : Int) + 1 + ((ps.flatMap entryTokens).length : Int) + 2)
        = .ok p.ts := by
      have h := tok_at 2 p.ts (by simp [entryTokens])
      push_cast at h
      exact h
    have hTval : pyGet ((pfx ++ ["11"]) ++ ES.flatMap entryTokens)
        ((pfx.length : Int) + 1 + ((ps.flatMap entryTokens).length : Int))
        = .ok p.val := by
      have h := tok_at 0 p.val (by simp [entryTokens])
      push_cast at h
      simpa using h
    have hmain : ∀ (idx : Int), 0 ≤ idx →
        findMarker ((pfx ++ ["11"]) ++ ES.flatMap entryTokens) idx = .ok ((pfx.length : Int) + 1 + ((ps.flatMap entryTokens).length : Int) + 3) →
        readCombinedAux ((pfx ++ ["11"]) ++ ES.flatMap entryTokens) idx acc
          = .ok (acc ++ ((ps ++ [p]).map entryReading).reverse,
              if t2 = "10" then false else true) := by
      intro idx h0 hm
      rw [readCombinedAux, if_neg (by omega), hm]
      simp only []
      rw [dif_neg (by omega)]
      rw [show ((pfx.length : Int) + 1 + ((ps.flatMap entryTokens).length : Int) + 3 : Int) - 2 = (pfx.length : Int) + 1 + ((ps.flatMap entryTokens).length : Int) + 1 from by ring]
      rw [hT10]
      simp only []
      rw [if_neg (fun hne => hne rfl : ¬ ("10" : String) ≠ "10")]
      rw [hT9]
      simp only []
      rw [if_neg (by decide : ¬ ("9" : String) = "11")]
      rw [show ((pfx.length : Int) + 1 + ((ps.flatMap entryTokens).length : Int) + 3 : Int) - 1 = (pfx.length : Int) + 1 + ((ps.flatMap entryTokens).length : Int) + 2 from by ring]
      rw [hTts]
      simp only []
      rw [htsv]
      simp only []
      rw [show ((pfx.length : Int) + 1 + ((ps.flatMap entryTokens).length : Int) + 3 : Int) - 3 = (pfx.length : Int) + 1 + ((ps.flatMap entryTokens).length : Int) from by ring]
      rw [hTval]
      simp only []
      rw [hqv]
      simp only []
      have hrec := ih (p :: done) hsplit2 (acc ++ [entryReading p])
      simp only [List.isEmpty_cons, Bool.false_eq_true, if_false] at hrec
      rw [hread] at hrec
      rw [hrec]
      rw [← hread]
      congr 2
      simp [List.map_append, List.reverse_append, List.append_assoc]
    cases done with
    | nil =>
      have hidx : (pfx.length : Int) + 1
          + (((ps ++ [p]).flatMap entryTokens).length : Int)
          + (if ([] : List CEntry).isEmpty then (-1 : Int) else 2)
          = ((((pfx ++ ["11"]) ++ ps.flatMap entryTokens) ++ [p.val, "10", p.ts, "9"]).length : Int)
            + (((p.fill ++ ["8"]) : List String).length : Int) - 1 := by
        rw [if_pos (show ([] : List CEntry).isEmpty = true from rfl)]
        push_cast [List.length_append, List.length_cons, List.length_nil, List.flatMap_append, List.flatMap_cons, List.flatMap_nil, entryTokens_length, List.isEmpty_nil, List.isEmpty_cons, Bool.false_eq_true, reduceIte]
        ring
      rw [hidx]
      have hdecomp2 : (pfx ++ ["11"]) ++ ES.flatMap entryTokens
          = (((pfx ++ ["11"]) ++ ps.flatMap entryTokens) ++ [p.val, "10", p.ts, "9"]) ++ (p.fill ++ ["8"]) ++ ([] : List String) := by
        rw [hsplit]
        simp [entryTokens, List.flatMap_append, List.flatMap_cons,
          List.flatMap_nil, List.append_assoc]
      have hskip := findMarker_skip_run (p.fill ++ ["8"])
        (by
          intro t ht
          rcases List.mem_append.mp ht with h1 | h1
          · exact hnm3 t h1
          · rw [List.mem_singleton.mp h1]
            exact ⟨by decide, by decide⟩)
        (((pfx ++ ["11"]) ++ ps.flatMap entryTokens) ++ [p.val, "10", p.ts, "9"]) ([] : List String)
      rw [← hdecomp2] at hskip
      have hpre3 : ((((pfx ++ ["11"]) ++ ps.flatMap entryTokens) ++ [p.val, "10", p.ts, "9"]).length : Int) - 1 = (pfx.length : Int) + 1 + ((ps.flatMap entryTokens).length : Int) + 3 := by
        push_cast [List.length_append, List.length_cons, List.length_nil, List.flatMap_append, List.flatMap_cons, List.flatMap_nil, entryTokens_length, List.isEmpty_nil, List.isEmpty_cons, Bool.false_eq_true, reduceIte]
        ring
      have hfm : findMarker ((pfx ++ ["11"]) ++ ES.flatMap entryTokens)
          (((((pfx ++ ["11"]) ++ ps.flatMap entryTokens) ++ [p.val, "10", p.ts, "9"]).length : Int)
            + (((p.fill ++ ["8"]) : List String).length : Int) - 1)
          = .ok ((pfx.length : Int) + 1 + ((ps.flatMap entryTokens).length : Int) + 3) := by
        rw [hskip, hpre3]
        exact findMarker_hit _ _ "9" (by omega) hT9 (Or.inl rfl)
      exact hmain _ (by push_cast; omega) hfm
    | cons d rest =>
      have hokd : entryOk d := hok d (by rw [hsplit]; simp)
      obtain ⟨hdnm1, hdnm2, hdnm3, hdok4, hdok5⟩ := hokd
      have hidx : (pfx.length : Int) + 1
          + (((ps ++ [p]).flatMap entryTokens).length : Int)
          + (if (d :: rest).isEmpty then (-1 : Int) else 2)
          = ((((pfx ++ ["11"]) ++ ps.flatMap entryTokens) ++ [p.val, "10", p.ts, "9"]).length : Int)
            + ((((p.fill ++ ["8"]) ++ [d.val, "10", d.ts]) : List String).length : Int)
            - 1 := by
        rw [if_neg (show ¬ (d :: rest).isEmpty = true from by simp)]
        push_cast [List.length_append, List.length_cons, List.length_nil, List.flatMap_append, List.flatMap_cons, List.flatMap_nil, entryTokens_length, List.isEmpty_nil, List.isEmpty_cons, Bool.false_eq_true, reduceIte]
        ring
      rw [hidx]
      have hdecomp2 : (pfx ++ ["11"]) ++ ES.flatMap entryTokens
          = (((pfx ++ ["11"]) ++ ps.flatMap entryTokens) ++ [p.val, "10", p.ts, "9"]) ++ ((p.fill ++ ["8"]) ++ [d.val, "10", d.ts])
            ++ ("9" :: (d.fill ++ ["8"]) ++ rest.flatMap entryTokens) := by
        rw [hsplit]
        simp [entryTokens, List.flatMap_append, List.flatMap_cons,
          List.flatMap_nil, List.append_assoc]
      have hskip := findMarker_skip_run ((p.fill ++ ["8"]) ++ [d.val, "10", d.ts])
        (by
          intro t ht
          rcases List.mem_append.mp ht with h1 | h1
          · rcases List.mem_append.mp h1 with h2 | h2
            · exact hnm3 t h2
            · rw [List.mem_singleton.mp h2]
              exact ⟨by decide, by decide⟩
          · simp only [List.mem_cons, List.not_mem_nil, or_false] at h1
            rcases h1 with h2 | h2 | h2 <;> subst h2
            · exact hdnm1
            · exact ⟨by decide, by decide⟩
            · exact hdnm2)
        (((pfx ++ ["11"]) ++ ps.flatMap entryTokens) ++ [p.val, "10", p.ts, "9"]) ("9" :: (d.fill ++ ["8"]) ++ rest.flatMap entryTokens)
      rw [← hdecomp2] at hskip
      have hpre3 : ((((pfx ++ ["11"]) ++ ps.flatMap entryTokens) ++ [p.val, "10", p.ts, "9"]).length : Int) - 1 = (pfx.length : Int) + 1 + ((ps.flatMap entryTokens).length : Int) + 3 := by
        push_cast [List.length_append, List.length_cons, List.length_nil, List.flatMap_append, List.flatMap_cons, List.flatMap_nil, entryTokens_length, List.isEmpty_nil, List.isEmpty_cons, Bool.false_eq_true, reduceIte]
        ring
      have hfm : findMarker ((pfx ++ ["11"]) ++ ES.flatMap entryTokens)
          (((((pfx ++ ["11"]) ++ ps.flatMap entryTokens) ++ [p.val, "10", p.ts, "9"]).length : Int)
            + ((((p.fill ++ ["8"]) ++ [d.val, "10", d.ts]) : List String).length : Int)
            - 1)
          = .ok ((pfx.length : Int) + 1 + ((ps.flatMap entryTokens).length : Int) + 3) := by
        rw [hskip, hpre3]
        exact findMarker_hit _ _ "9" (by omega) hT9 (Or.inl rfl)
      exact hmain _ (by push_cast; omega) hfm

instance (t : String) : Decidable (noMark t) := by
  unfold noMark
  infer_instance

instance (e : CEntry) : Decidable (entryOk e) := by
  unfold entryOk
  infer_instance

/-- C2 (amended): for every token stream made of a prefix, the terminal
marker `'11'`, and then N well-formed combined-list entries (scanned
backward, so the terminator is reached after the entries), provided the
stream has at least two tokens (automatic when N is at least 1 or any token
precedes the marker), `_read_combined` returns exactly N readings, in
chronological (stream) order, whose values and timestamps are the ones the
entries encode.  The sole excluded stream `["11"]` instead raises
IndexError. -/
theorem claim_C2_amended (pfx : List String) (entries : List CEntry)
    (hok : ∀ e ∈ entries, entryOk e)
    (hlen : 2 ≤ pfx.length + 1 + (entries.flatMap entryTokens).length) :
    ∃ w, read_combined ((pfx ++ ["11"]) ++ entries.flatMap entryTokens)
        = .ok (entries.map entryReading, w)
      ∧ (entries.map entryReading).length = entries.length := by
  obtain ⟨t2, ht2, hscan⟩ := readCombined_scan pfx entries hok hlen
  have h := hscan entries [] (by simp) []
  rw [read_combined]
  have hidx : ((((pfx ++ ["11"]) ++ entries.flatMap entryTokens)).length : Int) - 1
      = (pfx.length : Int) + 1 + ((entries.flatMap entryTokens).length : Int)
        + (if ([] : List CEntry).isEmpty then (-1 : Int) else 2) := by
    rw [if_pos (show ([] : List CEntry).isEmpty = true from rfl)]
    push_cast [List.length_append, List.length_cons, List.length_nil]
    ring
  rw [hidx, h]
  simp only []
  refine ⟨if t2 = "10" then false else true, ?_, by simp⟩
  simp

/-- C2 counterexample: the stream consisting of the terminal marker alone
(zero well-formed entries) makes `_read_combined` raise IndexError instead
of returning zero readings: `csvd[idx-2]` with `idx = 0` wraps to index `-2`
of a one-element list. -/
theorem claim_C2_counterexample :
    read_combined ["11"] = .error .indexError := by
  rw [read_combined_eval]
  rfl

/-- C2 witness: a two-token prefix, the terminal marker and one well-formed
entry decode to exactly that entry's reading. -/
theorem claim_C2_witness :
    ∃ w, read_combined ((["13", "12"] ++ ["11"])
          ++ ([⟨"1.5", "AA", ["0", "0", "1", "0", "0"]⟩] : List CEntry).flatMap
              entryTokens)
        = .ok (([⟨"1.5", "AA", ["0", "0", "1", "0", "0"]⟩] : List CEntry).map
            entryReading, w)
      ∧ (([⟨"1.5", "AA", ["0", "0", "1", "0", "0"]⟩] : List CEntry).map
          entryReading).length = 1 :=
  claim_C2_amended ["13", "12"] [⟨"1.5", "AA", ["0", "0", "1", "0", "0"]⟩]
    (by decide) (by decide)
